import Mathlib

/-!
Verification development for the smart-inventory repository.

Part A embeds the frontend token-storage and fetch-wrapper helpers
(`frontend/lib/auth.ts`, `frontend/lib/api.ts`) as pure Lean functions over an
explicit localStorage model.

Part B embeds the purchase-to-stock core (StockLedger, PurchaseOrderWorkflow,
JobExecutor, TenantContext).  The core is described by the specification but its
source is not part of the repository snapshot, so every definition in Part B is
modelled from the spec, faithful to its words; the accompanying doc comments say
so explicitly.  Timestamps (`paid_at`, `applied_at`) and role/capability checks
are outside the model: no claim under verification concerns them.
-/

namespace SmartInventory

/-! ## Part A: frontend helpers, embedded from source -/

namespace Frontend

/-- The browser localStorage, modelled as an association list from key to
value.  `setItem` overwrites, `getItem` returns the stored value or none,
`removeItem` deletes every binding of the key. -/
def LocalStorage := List (String × String)

instance : DecidableEq LocalStorage := by
  unfold LocalStorage
  infer_instance

def setItem (st : LocalStorage) (k v : String) : LocalStorage :=
  (k, v) :: st.filter (fun kv => !(kv.1 == k))

def getItem (st : LocalStorage) (k : String) : Option String :=
  (st.find? (fun kv => kv.1 == k)).map (fun kv => kv.2)

def removeItem (st : LocalStorage) (k : String) : LocalStorage :=
  st.filter (fun kv => !(kv.1 == k))

/-- Token pair, from `interface Tokens` in frontend/lib/auth.ts. -/
structure Tokens where
  access : String
  refresh : String
deriving Repr, DecidableEq

/-- `const ACCESS_KEY = "access_token"` in frontend/lib/auth.ts. -/
def ACCESS_KEY : String := "access_token"

/-- `const REFRESH_KEY = "refresh_token"` in frontend/lib/auth.ts. -/
def REFRESH_KEY : String := "refresh_token"

/-- The browser environment: whether `window` is defined, and the storage.
The auth helpers guard every storage access with
`typeof window !== "undefined"`. -/
structure BrowserEnv where
  hasWindow : Bool
  storage : LocalStorage
deriving DecidableEq

/-- `saveTokens` from frontend/lib/auth.ts: in a browser context stores the
access and refresh tokens under their keys, otherwise does nothing. -/
def saveTokens (env : BrowserEnv) (tokens : Tokens) : BrowserEnv :=
  if env.hasWindow then
    let st := setItem (setItem env.storage ACCESS_KEY tokens.access) REFRESH_KEY tokens.refresh
    { env with storage := st }
  else env

/-- `getAccessToken` from frontend/lib/auth.ts. -/
def getAccessToken (env : BrowserEnv) : Option String :=
  if env.hasWindow then getItem env.storage ACCESS_KEY else none

/-- `getRefreshToken` from frontend/lib/auth.ts. -/
def getRefreshToken (env : BrowserEnv) : Option String :=
  if env.hasWindow then getItem env.storage REFRESH_KEY else none

/-- `clearTokens` from frontend/lib/auth.ts: removes both keys in a browser
context. -/
def clearTokens (env : BrowserEnv) : BrowserEnv :=
  if env.hasWindow then
    { env with storage := removeItem (removeItem env.storage ACCESS_KEY) REFRESH_KEY }
  else env

/-- The slice of a parsed JSON body that frontend/lib/api.ts inspects: the
optional `detail` field (`data?.detail`).  A `detail` that is present but empty
is falsy in JavaScript, which the error-message fallback below reflects. -/
structure JsonVal where
  detail : Option String
deriving Repr, DecidableEq

/-- HTTP method union type of `apiFetch` in frontend/lib/api.ts. -/
inductive Method where
  | GET
  | POST
  | PATCH
  | DELETE
deriving Repr, DecidableEq

/-- The part of a fetch Response that apiFetch reads.  `jsonBody = none` models
a response whose body is empty or not valid JSON (`response.json()` throws and
`data` stays null). -/
structure HttpResponse where
  status : Nat
  jsonBody : Option JsonVal
  statusText : String
deriving Repr, DecidableEq

/-- `response.ok` per the Fetch standard: status in the range 200-299. -/
def respOk (status : Nat) : Bool :=
  200 ≤ status && status ≤ 299

/-- `const API_BASE_URL = process.env.NEXT_PUBLIC_API_BASE_URL || "http://127.0.0.1:8000/api"`,
with the environment variable absent. -/
def API_BASE_URL : String := "http://127.0.0.1:8000/api"

/-- URL construction in apiFetch: an endpoint starting with "http" is absolute,
anything else is appended to the base URL. -/
def buildUrl (endpoint : String) : String :=
  if endpoint.startsWith "http" then endpoint else API_BASE_URL ++ endpoint

/-- `getAuthHeaders` from frontend/lib/api.ts: always Content-Type, plus
Authorization when an access token is stored and X-Tenant when a tenant is
stored. -/
def getAuthHeaders (st : LocalStorage) : List (String × String) :=
  let base := [("Content-Type", "application/json")]
  let withAuth := match getItem st "access_token" with
    | some tok => base ++ [("Authorization", "Bearer " ++ tok)]
    | none => base
  match getItem st "tenant" with
  | some tenant => withAuth ++ [("X-Tenant", tenant)]
  | none => withAuth

/-- Everything apiFetch does besides the network call: the storage afterwards,
an optional client-side redirect, and either a thrown error message or the
returned value. -/
structure ApiOutcome where
  storage : LocalStorage
  redirect : Option String
  result : Except String (Option JsonVal)

/-- Error message in the not-ok branch of apiFetch:
`data?.detail || "Request failed: " + response.statusText`.  An absent body,
an absent detail field, or an empty-string detail all fall through to the
fallback, matching JavaScript truthiness. -/
def failMessage (data : Option JsonVal) (statusText : String) : String :=
  match data with
  | some j =>
    match j.detail with
    | some d => if d = "" then "Request failed: " ++ statusText else d
    | none => "Request failed: " ++ statusText
  | none => "Request failed: " ++ statusText

/-- `apiFetch` from frontend/lib/api.ts, as a pure function of the stored state
and the response the server produced.  On 401 it clears both tokens, redirects
to /login and throws; otherwise it parses the body (null on failure), throws on
a not-ok status, and returns the parsed data on an ok status.  The endpoint,
method and body only shape the request and never the handling of the
response. -/
def apiFetch (st : LocalStorage) (endpoint : String) (method : Method)
    (body : Option JsonVal) (resp : HttpResponse) : ApiOutcome :=
  let _url := buildUrl endpoint
  let _headers := getAuthHeaders st
  let _ := method
  let _ := body
  if resp.status == 401 then
    { storage := removeItem (removeItem st "access_token") "refresh_token"
      redirect := some "/login"
      result := Except.error "Unauthorized. Please log in again." }
  else
    let data := resp.jsonBody
    if respOk resp.status then
      { storage := st, redirect := none, result := Except.ok data }
    else
      { storage := st, redirect := none
        result := Except.error (failMessage data resp.statusText) }

/-- Did the call throw (reject) rather than return a value? -/
def isThrown (r : Except String (Option JsonVal)) : Bool :=
  match r with
  | Except.error _ => true
  | Except.ok _ => false

end Frontend

/-! ## Part B: the purchase-to-stock core, modelled from the spec -/

namespace Core

/-- Modelled from the spec: the error taxonomy of section 7.  The core source
is absent from the repository; only this taxonomy is named there.  `NotFound`
covers operations on an entity id with no entity behind it, a case the spec
leaves unnamed. -/
inductive Err where
  | InvalidTransition
  | InvalidDelta
  | DuplicateApplication
  | CrossTenantAccess
  | TransientStoreFailure
  | NotFound
deriving Repr, DecidableEq

/-- Modelled from the spec: Product `{id, tenant_id, sku, on_hand_quantity}`,
with `on_hand_quantity` an integer that is never negative. -/
structure Product where
  id : Nat
  tenant_id : Nat
  sku : String
  on_hand_quantity : Nat
deriving Repr, DecidableEq

/-- Modelled from the spec: one entry of a PurchaseOrder's line_items,
`{product_id, quantity, unit_cost}`. -/
structure LineItem where
  product_id : Nat
  quantity : Nat
  unit_cost : Nat
deriving Repr, DecidableEq

/-- Modelled from the spec: the PurchaseOrder states
`PENDING → APPROVED → PAID → FULFILLED` with terminal `CANCELLED`. -/
inductive OrderState where
  | PENDING
  | APPROVED
  | PAID
  | FULFILLED
  | CANCELLED
deriving Repr, DecidableEq

/-- Modelled from the spec: PurchaseOrder.  `version` backs the optimistic
concurrency check of `approve`; `payment_ref` records the unique payment
reference supplied at `confirm_payment`; `paid_at` is outside the model
(no claim concerns time). -/
structure PurchaseOrder where
  id : Nat
  tenant_id : Nat
  created_by : Nat
  line_items : List LineItem
  state : OrderState
  approved_by : Option Nat
  payment_ref : Option String
  fulfillment_job_id : Option Nat
  version : Nat
deriving Repr, DecidableEq

/-- Modelled from the spec: Job statuses. -/
inductive JobStatus where
  | QUEUED
  | RUNNING
  | SUCCEEDED
  | FAILED
deriving Repr, DecidableEq

/-- Modelled from the spec: Job.  Its payload is the PurchaseOrder id; the
idempotency key is derived deterministically from the order id (the target
state is always FULFILLED, so the order id determines the key). -/
structure Job where
  id : Nat
  order_id : Nat
  idempotency_key : Nat
  status : JobStatus
  attempt_count : Nat
  last_error : Option Err
deriving Repr, DecidableEq

/-- Modelled from the spec: StockMutationRecord, the immutable append-only
audit entry `{product_id, delta, caused_by_order_id}`; `applied_at` is outside
the model. -/
structure StockMutationRecord where
  product_id : Nat
  delta : Int
  caused_by_order_id : Nat
deriving Repr, DecidableEq

/-- Modelled from the spec: the state owned by the StockLedger — the products
(the authoritative quantities) and the append-only audit records. -/
structure Stock where
  products : List Product
  records : List StockMutationRecord
deriving Repr, DecidableEq

/-- Modelled from the spec: the whole persistent state: the ledger, the
orders, the jobs, and the id counters the store uses to mint fresh ids. -/
structure SysState where
  stock : Stock
  orders : List PurchaseOrder
  jobs : List Job
  next_order_id : Nat
  next_job_id : Nat
deriving Repr, DecidableEq

/-- Look a product up by id (first match). -/
def lookupProduct (products : List Product) (pid : Nat) : Option Product :=
  products.find? (fun p => p.id == pid)

/-- Replace the quantity of the product with the given id. -/
def setQuantity (products : List Product) (pid : Nat) (q : Nat) : List Product :=
  products.map (fun p => if p.id = pid then { p with on_hand_quantity := q } else p)

/-- Does a mutation record for this causal order and product already exist? -/
def hasRecord (records : List StockMutationRecord) (oid pid : Nat) : Bool :=
  records.any (fun r => r.caused_by_order_id == oid && r.product_id == pid)

/-- Modelled from the spec:
`StockLedger.apply_delta(tenant_id, product_id, delta, causal_order_id)`.
Guards in order: the product must exist and belong to the tenant
(`CrossTenantAccess` at the boundary of every public method), the delta must
not drive the quantity negative (`InvalidDelta`), and no record for the same
causal order and product may exist (`DuplicateApplication`).  A successful
call updates the quantity and appends exactly one StockMutationRecord, the
two together atomically, and returns the new quantity. -/
def apply_delta (st : Stock) (tenant_id product_id : Nat) (delta : Int)
    (causal_order_id : Nat) : Except Err (Stock × Nat) :=
  match lookupProduct st.products product_id with
  | none => Except.error Err.NotFound
  | some p =>
    if p.tenant_id ≠ tenant_id then Except.error Err.CrossTenantAccess
    else if (p.on_hand_quantity : Int) + delta < 0 then Except.error Err.InvalidDelta
    else if hasRecord st.records causal_order_id product_id then
      Except.error Err.DuplicateApplication
    else
      let newq := ((p.on_hand_quantity : Int) + delta).toNat
      Except.ok
        ({ products := setQuantity st.products product_id newq
           records := { product_id := product_id, delta := delta
                        caused_by_order_id := causal_order_id } :: st.records },
         newq)

/-- Modelled from the spec: `StockLedger.get_quantity(tenant_id, product_id)`,
a snapshot read, tenant-checked at the boundary. -/
def get_quantity (st : Stock) (tenant_id product_id : Nat) : Except Err Nat :=
  match lookupProduct st.products product_id with
  | none => Except.error Err.NotFound
  | some p =>
    if p.tenant_id ≠ tenant_id then Except.error Err.CrossTenantAccess
    else Except.ok p.on_hand_quantity

/-- Look an order up by id (first match). -/
def findOrder (orders : List PurchaseOrder) (oid : Nat) : Option PurchaseOrder :=
  orders.find? (fun o => o.id == oid)

/-- Apply an update to the order with the given id. -/
def updateOrder (orders : List PurchaseOrder) (oid : Nat)
    (f : PurchaseOrder → PurchaseOrder) : List PurchaseOrder :=
  orders.map (fun o => if o.id = oid then f o else o)

/-- Look a job up by id (first match). -/
def findJob (jobs : List Job) (jid : Nat) : Option Job :=
  jobs.find? (fun j => j.id == jid)

/-- Apply an update to the job with the given id. -/
def updateJob (jobs : List Job) (jid : Nat) (f : Job → Job) : List Job :=
  jobs.map (fun j => if j.id = jid then f j else j)

/-- Modelled from the spec: `create` of the PurchaseOrderWorkflow.  Guard:
line_items non-empty and all quantities positive (a guard violation surfaces
as `InvalidTransition`, the taxonomy's state-machine-guard error).  The new
order is `PENDING` with a fresh id; the new id is returned with the state. -/
def createOrder (s : SysState) (tenant_id created_by : Nat)
    (items : List LineItem) : Except Err (SysState × Nat) :=
  if items.isEmpty then Except.error Err.InvalidTransition
  else if items.all (fun it => 0 < it.quantity) then
    let o : PurchaseOrder :=
      { id := s.next_order_id, tenant_id := tenant_id, created_by := created_by
        line_items := items, state := OrderState.PENDING, approved_by := none
        payment_ref := none, fulfillment_job_id := none, version := 0 }
    Except.ok ({ s with orders := o :: s.orders, next_order_id := s.next_order_id + 1 },
      s.next_order_id)
  else Except.error Err.InvalidTransition

/-- Modelled from the spec: `approve`.  Tenant-checked at the boundary; the
order must still be `PENDING` and untouched since the version the caller read
(optimistic concurrency), else `InvalidTransition`. -/
def approve (s : SysState) (tenant_id oid approver expected_version : Nat) :
    Except Err SysState :=
  match findOrder s.orders oid with
  | none => Except.error Err.NotFound
  | some o =>
    if o.tenant_id ≠ tenant_id then Except.error Err.CrossTenantAccess
    else if o.state = OrderState.PENDING ∧ o.version = expected_version then
      Except.ok { s with orders := updateOrder s.orders oid (fun o' =>
        { o' with state := OrderState.APPROVED, approved_by := some approver
                  version := o'.version + 1 }) }
    else Except.error Err.InvalidTransition

/-- Modelled from the spec: `cancel`.  Allowed from `PENDING` or `APPROVED`
only — never after `PAID` — and lands in the terminal `CANCELLED` state. -/
def cancel (s : SysState) (tenant_id oid : Nat) : Except Err SysState :=
  match findOrder s.orders oid with
  | none => Except.error Err.NotFound
  | some o =>
    if o.tenant_id ≠ tenant_id then Except.error Err.CrossTenantAccess
    else if o.state = OrderState.PENDING ∨ o.state = OrderState.APPROVED then
      Except.ok { s with orders := updateOrder s.orders oid (fun o' =>
        { o' with state := OrderState.CANCELLED, version := o'.version + 1 }) }
    else Except.error Err.InvalidTransition

/-- Modelled from the spec: `confirm_payment`.  Tenant-checked; the order must
be `APPROVED` and the payment reference must not be carried by any order
(uniqueness guard, surfaced as `InvalidTransition` like every state-machine
guard).  On success the transition to `PAID` and the enqueue of exactly one
fulfillment job are committed together in the single returned state — both
happen or, on any error, neither. -/
def confirm_payment (s : SysState) (tenant_id oid : Nat) (ref : String) :
    Except Err SysState :=
  match findOrder s.orders oid with
  | none => Except.error Err.NotFound
  | some o =>
    if o.tenant_id ≠ tenant_id then Except.error Err.CrossTenantAccess
    else if o.state ≠ OrderState.APPROVED then Except.error Err.InvalidTransition
    else if s.orders.any (fun o' => o'.payment_ref == some ref) then
      Except.error Err.InvalidTransition
    else
      let j : Job := { id := s.next_job_id, order_id := oid, idempotency_key := oid
                       status := JobStatus.QUEUED, attempt_count := 0, last_error := none }
      Except.ok { s with
        orders := updateOrder s.orders oid (fun o' =>
          { o' with state := OrderState.PAID, payment_ref := some ref
                    fulfillment_job_id := some s.next_job_id, version := o'.version + 1 })
        jobs := j :: s.jobs
        next_job_id := s.next_job_id + 1 }

/-- Modelled from the spec: the configured maximum attempt count of the
JobExecutor's retry policy. -/
def maxAttempts : Nat := 5

/-- Modelled from the spec: apply every line item of an order against the
ledger.  A `DuplicateApplication` from the idempotence guard is treated as
success (the item was already applied by an earlier attempt); any other error
aborts the whole application with no partial effect, so the multi-step
mutation commits as a single atomic unit. -/
def applyItems (tenant_id oid : Nat) : Stock → List LineItem → Except Err Stock
  | st, [] => Except.ok st
  | st, item :: rest =>
    match apply_delta st tenant_id item.product_id (item.quantity : Int) oid with
    | Except.ok (st', _) => applyItems tenant_id oid st' rest
    | Except.error Err.DuplicateApplication => applyItems tenant_id oid st rest
    | Except.error e => Except.error e

/-- Modelled from the spec: `JobExecutor.run_once(job_id)`.  The order state is
checked fresh on each attempt: a `CANCELLED` order makes the job self-abort
(marked `FAILED`, no stock effect); a job whose order never reached `PAID` is
refused; for a `PAID` or `FULFILLED` order the line items are applied through
the ledger's idempotence guard — never trusting the job's own status field —
then the order is marked `FULFILLED` and the job `SUCCEEDED`.  An application
failure increments `attempt_count`, records `last_error` and requeues, until
the configured maximum attempt count marks the job `FAILED`. -/
def run_once (s : SysState) (tenant_id jid : Nat) : Except Err SysState :=
  match findJob s.jobs jid with
  | none => Except.error Err.NotFound
  | some j =>
    match findOrder s.orders j.order_id with
    | none => Except.error Err.NotFound
    | some o =>
      if o.tenant_id ≠ tenant_id then Except.error Err.CrossTenantAccess
      else
        match o.state with
        | OrderState.CANCELLED =>
          Except.ok { s with jobs := updateJob s.jobs jid (fun j' =>
            { j' with status := JobStatus.FAILED
                      last_error := some Err.InvalidTransition }) }
        | OrderState.PENDING => Except.error Err.InvalidTransition
        | OrderState.APPROVED => Except.error Err.InvalidTransition
        | _ =>
          match applyItems tenant_id j.order_id s.stock o.line_items with
          | Except.ok st' =>
            Except.ok { s with
              stock := st'
              orders := updateOrder s.orders j.order_id (fun o' =>
                { o' with state := OrderState.FULFILLED, version := o'.version + 1 })
              jobs := updateJob s.jobs jid (fun j' =>
                { j' with status := JobStatus.SUCCEEDED
                          attempt_count := j'.attempt_count + 1 }) }
          | Except.error e =>
            Except.ok { s with jobs := updateJob s.jobs jid (fun j' =>
              { j' with
                  status := if maxAttempts ≤ j'.attempt_count + 1 then JobStatus.FAILED
                            else JobStatus.QUEUED
                  attempt_count := j'.attempt_count + 1
                  last_error := some e }) }

/-- Did an order reach `PAID`?  True exactly in the `PAID` and `FULFILLED`
states: `FULFILLED` is only entered from `PAID`, and `CANCELLED` is reachable
only before `PAID`. -/
def reachedPaid (st : OrderState) : Prop :=
  st = OrderState.PAID ∨ st = OrderState.FULFILLED

instance (st : OrderState) : Decidable (reachedPaid st) := by
  unfold reachedPaid
  infer_instance

/-- Every stock mutation record is justified: the order it names exists and
reached `PAID`. -/
def RecordsJustified (s : SysState) : Prop :=
  ∀ r ∈ s.stock.records, ∃ o ∈ s.orders,
    o.id = r.caused_by_order_id ∧ reachedPaid o.state

/-- Two audit records describe distinct causal events: they differ in causal
order or in product. -/
def RecDistinct (r₁ r₂ : StockMutationRecord) : Prop :=
  ¬(r₁.caused_by_order_id = r₂.caused_by_order_id ∧ r₁.product_id = r₂.product_id)

/-- No two stock mutation records share a causal order and product: each
causal event applied at most once. -/
def RecordsUnique (s : SysState) : Prop :=
  s.stock.records.Pairwise RecDistinct

/-- Every order that reached `PAID` has a fulfillment job. -/
def PaidHasJob (s : SysState) : Prop :=
  ∀ o ∈ s.orders, reachedPaid o.state → ∃ j ∈ s.jobs, j.order_id = o.id

/-- Every fulfillment job points at an existing order that reached `PAID`. -/
def JobsJustified (s : SysState) : Prop :=
  ∀ j ∈ s.jobs, ∃ o ∈ s.orders, o.id = j.order_id ∧ reachedPaid o.state

/-- The structural part of the system invariant: order ids are distinct and
below the id counter, and product ids are distinct. -/
def WellFormed (s : SysState) : Prop :=
  (s.orders.map (fun o => o.id)).Nodup ∧
  (∀ o ∈ s.orders, o.id < s.next_order_id) ∧
  (s.stock.products.map (fun p => p.id)).Nodup

/-- The full system invariant preserved by every operation. -/
def Inv (s : SysState) : Prop :=
  WellFormed s ∧ RecordsJustified s ∧ RecordsUnique s ∧ PaidHasJob s ∧ JobsJustified s

/-- An initial state: products only — no orders, no jobs, no audit records —
with distinct product ids. -/
def Init (s : SysState) : Prop :=
  s.orders = [] ∧ s.jobs = [] ∧ s.stock.records = [] ∧
  (s.stock.products.map (fun p => p.id)).Nodup

/-- One successful public operation of the core.  Failed calls return an error
and leave no successor state, so they are not steps. -/
inductive Step : SysState → SysState → Prop where
  | create_step (s s' : SysState) (tenant_id created_by oid : Nat)
      (items : List LineItem) :
      createOrder s tenant_id created_by items = Except.ok (s', oid) → Step s s'
  | approve_step (s s' : SysState) (tenant_id oid approver expected_version : Nat) :
      approve s tenant_id oid approver expected_version = Except.ok s' → Step s s'
  | cancel_step (s s' : SysState) (tenant_id oid : Nat) :
      cancel s tenant_id oid = Except.ok s' → Step s s'
  | confirm_step (s s' : SysState) (tenant_id oid : Nat) (ref : String) :
      confirm_payment s tenant_id oid ref = Except.ok s' → Step s s'
  | run_step (s s' : SysState) (tenant_id jid : Nat) :
      run_once s tenant_id jid = Except.ok s' → Step s s'

/-- Reachability: zero or more successful operations. -/
def Reachable : SysState → SysState → Prop :=
  Relation.ReflTransGen Step

/-- Quantity snapshot as an integer (0 when the product does not exist). -/
def qtyI (st : Stock) (pid : Nat) : Int :=
  match lookupProduct st.products pid with
  | some p => (p.on_hand_quantity : Int)
  | none => 0

/-- Sum of the deltas of all audit records for one product. -/
def recSum (records : List StockMutationRecord) (pid : Nat) : Int :=
  (records.map (fun r => if r.product_id = pid then r.delta else 0)).sum

/-- The shape of the product list: ids and tenants, everything but the mutable
quantity. -/
def shapeOf (products : List Product) : List (Nat × Nat) :=
  products.map (fun p => (p.id, p.tenant_id))

/-- Concrete walkthrough of the spec's section 8 scenario: one product with
nothing on hand, one order for five units. -/
def exInit : SysState :=
  ⟨⟨[⟨1, 1, "SKU-1", 0⟩], []⟩, [], [], 0, 0⟩

/-- The walkthrough after `create`. -/
def exAfterCreate : SysState :=
  ⟨⟨[⟨1, 1, "SKU-1", 0⟩], []⟩,
   [⟨0, 1, 7, [⟨1, 5, 10⟩], OrderState.PENDING, none, none, none, 0⟩], [], 1, 0⟩

/-- The walkthrough after `approve`. -/
def exAfterApprove : SysState :=
  ⟨⟨[⟨1, 1, "SKU-1", 0⟩], []⟩,
   [⟨0, 1, 7, [⟨1, 5, 10⟩], OrderState.APPROVED, some 8, none, none, 1⟩], [], 1, 0⟩

/-- The walkthrough after `confirm_payment` with reference "PAY-1": the order
is `PAID` and exactly one fulfillment job is enqueued, in the same state. -/
def exAfterPay : SysState :=
  ⟨⟨[⟨1, 1, "SKU-1", 0⟩], []⟩,
   [⟨0, 1, 7, [⟨1, 5, 10⟩], OrderState.PAID, some 8, some "PAY-1", some 0, 2⟩],
   [⟨0, 0, 0, JobStatus.QUEUED, 0, none⟩], 1, 1⟩

/-- The walkthrough after `run_once`: five units on hand, one audit record,
order `FULFILLED`, job `SUCCEEDED`. -/
def exFinal : SysState :=
  ⟨⟨[⟨1, 1, "SKU-1", 5⟩], [⟨1, 5, 0⟩]⟩,
   [⟨0, 1, 7, [⟨1, 5, 10⟩], OrderState.FULFILLED, some 8, some "PAY-1", some 0, 3⟩],
   [⟨0, 0, 0, JobStatus.SUCCEEDED, 1, none⟩], 1, 1⟩

end Core

/-! ## Theorems, Part A: the frontend helpers -/

namespace Frontend

theorem getItem_removeItem_same (st : LocalStorage) (k : String) :
    getItem (removeItem st k) k = none := by
  have hnone : (removeItem st k).find? (fun kv => kv.1 == k) = none := by
    rw [List.find?_eq_none]
    intro x hx
    have hp := List.of_mem_filter hx
    simp only [Bool.not_eq_true'] at hp
    simp only [hp]
    exact Bool.false_ne_true
  simp [getItem, hnone]

theorem getItem_removeItem_other (st : LocalStorage) (k k' : String) (h : k' ≠ k) :
    getItem (removeItem st k) k' = getItem st k' := by
  unfold getItem removeItem
  congr 1
  induction st with
  | nil => rfl
  | cons kv rest ih =>
    rw [List.filter_cons]
    by_cases hk : kv.1 = k
    · have h2 : (!(kv.1 == k)) = false := by simp [hk]
      have h1 : (kv.1 == k') = false := by
        simp only [beq_eq_false_iff_ne, ne_eq, hk]
        exact fun e => h e.symm
      rw [h2]
      simp only [Bool.false_eq_true, if_false]
      rw [List.find?_cons, h1]
      exact ih
    · have h2 : (!(kv.1 == k)) = true := by simp [hk]
      rw [h2, if_pos rfl]
      rw [List.find?_cons, List.find?_cons]
      cases hb : (kv.1 == k')
      · exact ih
      · rfl

theorem getItem_setItem_same (st : LocalStorage) (k v : String) :
    getItem (setItem st k v) k = some v := by
  simp [getItem, setItem, List.find?]

theorem getItem_setItem_other (st : LocalStorage) (k k' v : String) (h : k' ≠ k) :
    getItem (setItem st k v) k' = getItem st k' := by
  have h1 : (k == k') = false := by
    simp
    exact fun e => h e.symm
  simp only [setItem, getItem, List.find?, h1]
  exact getItem_removeItem_other st k k' h

/-- C8: token storage round-trips.  In a browser context, after `saveTokens t`
the getters return `t.access` and `t.refresh`; after `clearTokens` both
getters return null. -/
theorem tokens_roundtrip (env : BrowserEnv) (t : Tokens) (h : env.hasWindow = true) :
    getAccessToken (saveTokens env t) = some t.access ∧
    getRefreshToken (saveTokens env t) = some t.refresh ∧
    getAccessToken (clearTokens env) = none ∧
    getRefreshToken (clearTokens env) = none := by
  have hak : ACCESS_KEY ≠ REFRESH_KEY := by decide
  refine ⟨?_, ?_, ?_, ?_⟩
  · simp only [getAccessToken, saveTokens, h, if_true]
    rw [getItem_setItem_other _ _ _ _ hak, getItem_setItem_same]
  · simp only [getRefreshToken, saveTokens, h, if_true]
    rw [getItem_setItem_same]
  · simp only [getAccessToken, clearTokens, h, if_true]
    rw [getItem_removeItem_other _ _ _ hak, getItem_removeItem_same]
  · simp only [getRefreshToken, clearTokens, h, if_true]
    rw [getItem_removeItem_same]

/-- Witness for C8 at a concrete environment and token pair. -/
theorem tokens_roundtrip_witness :
    getAccessToken (saveTokens ⟨true, []⟩ ⟨"a", "r"⟩) = some "a" ∧
    getRefreshToken (saveTokens ⟨true, []⟩ ⟨"a", "r"⟩) = some "r" ∧
    getAccessToken (clearTokens ⟨true, []⟩) = none ∧
    getRefreshToken (clearTokens ⟨true, []⟩) = none :=
  tokens_roundtrip ⟨true, []⟩ ⟨"a", "r"⟩ rfl

/-- C9: a 401 response makes apiFetch remove both token keys from storage and
throw; it never returns a value, for any endpoint, method, body or prior
storage. -/
theorem unauthorized_clears_and_throws (st : LocalStorage) (endpoint : String)
    (method : Method) (body : Option JsonVal) (resp : HttpResponse)
    (h : resp.status = 401) :
    getItem (apiFetch st endpoint method body resp).storage "access_token" = none ∧
    getItem (apiFetch st endpoint method body resp).storage "refresh_token" = none ∧
    (apiFetch st endpoint method body resp).result =
      Except.error "Unauthorized. Please log in again." := by
  have hne : ("access_token" : String) ≠ "refresh_token" := by decide
  simp only [apiFetch, h]
  norm_num
  constructor
  · rw [getItem_removeItem_other _ _ _ hne, getItem_removeItem_same]
  · rw [getItem_removeItem_same]

/-- Witness for C9 at a concrete 401 response. -/
theorem unauthorized_clears_and_throws_witness :
    getItem (apiFetch [("access_token", "x")] "/orders/" Method.GET none
      ⟨401, none, "Unauthorized"⟩).storage "access_token" = none ∧
    getItem (apiFetch [("access_token", "x")] "/orders/" Method.GET none
      ⟨401, none, "Unauthorized"⟩).storage "refresh_token" = none ∧
    (apiFetch [("access_token", "x")] "/orders/" Method.GET none
      ⟨401, none, "Unauthorized"⟩).result =
      Except.error "Unauthorized. Please log in again." :=
  unauthorized_clears_and_throws [("access_token", "x")] "/orders/" Method.GET none
    ⟨401, none, "Unauthorized"⟩ rfl

/-- C10: apiFetch throws exactly when the response is not ok (status outside
200-299, the 401 branch included), and on every ok response returns the parsed
body — `none` for an empty or invalid body — without throwing. -/
theorem apiFetch_throws_iff_not_ok (st : LocalStorage) (endpoint : String)
    (method : Method) (body : Option JsonVal) (resp : HttpResponse) :
    (isThrown (apiFetch st endpoint method body resp).result = true ↔
      respOk resp.status = false) ∧
    (respOk resp.status = true →
      (apiFetch st endpoint method body resp).result = Except.ok resp.jsonBody) := by
  by_cases h401 : resp.status = 401
  · have hok : respOk 401 = false := by decide
    simp [apiFetch, h401, hok, isThrown]
  · have hne : (resp.status == 401) = false := by simpa using h401
    by_cases hok : respOk resp.status
    · simp [apiFetch, hne, hok, isThrown]
    · simp only [Bool.not_eq_true] at hok
      simp [apiFetch, hne, hok, isThrown]

/-- Witness for C10 at a concrete ok response. -/
theorem apiFetch_throws_iff_not_ok_witness :
    (isThrown (apiFetch [] "/products/" Method.GET none
      ⟨200, some ⟨none⟩, "OK"⟩).result = true ↔
      respOk 200 = false) ∧
    (respOk 200 = true →
      (apiFetch [] "/products/" Method.GET none ⟨200, some ⟨none⟩, "OK"⟩).result =
        Except.ok (some ⟨none⟩)) :=
  apiFetch_throws_iff_not_ok [] "/products/" Method.GET none ⟨200, some ⟨none⟩, "OK"⟩

end Frontend

/-! ## Theorems, Part B: the core -/

namespace Core

theorem findOrder_mem {orders : List PurchaseOrder} {oid : Nat} {o : PurchaseOrder}
    (h : findOrder orders oid = some o) : o ∈ orders ∧ o.id = oid := by
  refine ⟨List.mem_of_find?_eq_some h, ?_⟩
  have hp := List.find?_some h
  simpa using hp

theorem findJob_mem {jobs : List Job} {jid : Nat} {j : Job}
    (h : findJob jobs jid = some j) : j ∈ jobs ∧ j.id = jid := by
  refine ⟨List.mem_of_find?_eq_some h, ?_⟩
  have hp := List.find?_some h
  simpa using hp

theorem orders_id_inj {orders : List PurchaseOrder}
    (hnd : (orders.map (fun o => o.id)).Nodup) {a b : PurchaseOrder}
    (ha : a ∈ orders) (hb : b ∈ orders) (hid : a.id = b.id) : a = b :=
  List.inj_on_of_nodup_map hnd ha hb hid

theorem createOrder_ok_inv {s s' : SysState} {t c oid : Nat} {items : List LineItem}
    (h : createOrder s t c items = Except.ok (s', oid)) :
    items.isEmpty = false ∧ items.all (fun it => 0 < it.quantity) = true ∧
    oid = s.next_order_id ∧
    s' = { s with
      orders := { id := s.next_order_id, tenant_id := t, created_by := c
                  line_items := items, state := OrderState.PENDING
                  approved_by := none, payment_ref := none
                  fulfillment_job_id := none, version := 0 } :: s.orders
      next_order_id := s.next_order_id + 1 } := by
  by_cases h1 : items.isEmpty = true
  · simp [createOrder, h1] at h
  · simp only [Bool.not_eq_true] at h1
    by_cases h2 : items.all (fun it => 0 < it.quantity) = true
    · simp only [createOrder, h1, Bool.false_eq_true, if_false, h2, if_true] at h
      obtain ⟨hs, ho⟩ := Prod.mk.injEq .. ▸ Except.ok.inj h
      exact ⟨h1, h2, ho.symm, hs.symm⟩
    · simp only [Bool.not_eq_true] at h2
      simp [createOrder, h1, h2] at h

theorem approve_ok_inv {s s' : SysState} {t oid approver ver : Nat}
    (h : approve s t oid approver ver = Except.ok s') :
    ∃ o, findOrder s.orders oid = some o ∧ o.tenant_id = t ∧
      o.state = OrderState.PENDING ∧ o.version = ver ∧
      s' = { s with orders := updateOrder s.orders oid (fun o' =>
        { o' with state := OrderState.APPROVED, approved_by := some approver
                  version := o'.version + 1 }) } := by
  cases hfo : findOrder s.orders oid with
  | none => simp [approve, hfo] at h
  | some o =>
    simp only [approve, hfo] at h
    by_cases h1 : o.tenant_id ≠ t
    · rw [if_pos h1] at h
      exact absurd h (by simp)
    · rw [if_neg h1] at h
      by_cases h2 : o.state = OrderState.PENDING ∧ o.version = ver
      · rw [if_pos h2] at h
        exact ⟨o, rfl, not_not.mp h1, h2.1, h2.2, (Except.ok.inj h).symm⟩
      · rw [if_neg h2] at h
        exact absurd h (by simp)

theorem cancel_ok_inv {s s' : SysState} {t oid : Nat}
    (h : cancel s t oid = Except.ok s') :
    ∃ o, findOrder s.orders oid = some o ∧ o.tenant_id = t ∧
      (o.state = OrderState.PENDING ∨ o.state = OrderState.APPROVED) ∧
      s' = { s with orders := updateOrder s.orders oid (fun o' =>
        { o' with state := OrderState.CANCELLED, version := o'.version + 1 }) } := by
  cases hfo : findOrder s.orders oid with
  | none => simp [cancel, hfo] at h
  | some o =>
    simp only [cancel, hfo] at h
    by_cases h1 : o.tenant_id ≠ t
    · rw [if_pos h1] at h
      exact absurd h (by simp)
    · rw [if_neg h1] at h
      by_cases h2 : o.state = OrderState.PENDING ∨ o.state = OrderState.APPROVED
      · rw [if_pos h2] at h
        exact ⟨o, rfl, not_not.mp h1, h2, (Except.ok.inj h).symm⟩
      · rw [if_neg h2] at h
        exact absurd h (by simp)

theorem confirm_payment_ok_inv {s s' : SysState} {t oid : Nat} {ref : String}
    (h : confirm_payment s t oid ref = Except.ok s') :
    ∃ o, findOrder s.orders oid = some o ∧ o.tenant_id = t ∧
      o.state = OrderState.APPROVED ∧
      s.orders.any (fun o' => o'.payment_ref == some ref) = false ∧
      s' = { s with
        orders := updateOrder s.orders oid (fun o' =>
          { o' with state := OrderState.PAID, payment_ref := some ref
                    fulfillment_job_id := some s.next_job_id
                    version := o'.version + 1 })
        jobs := { id := s.next_job_id, order_id := oid, idempotency_key := oid
                  status := JobStatus.QUEUED, attempt_count := 0
                  last_error := none } :: s.jobs
        next_job_id := s.next_job_id + 1 } := by
  cases hfo : findOrder s.orders oid with
  | none => simp [confirm_payment, hfo] at h
  | some o =>
    simp only [confirm_payment, hfo] at h
    by_cases h1 : o.tenant_id ≠ t
    · rw [if_pos h1] at h
      exact absurd h (by simp)
    · rw [if_neg h1] at h
      by_cases h2 : o.state ≠ OrderState.APPROVED
      · rw [if_pos h2] at h
        exact absurd h (by simp)
      · rw [if_neg h2] at h
        by_cases h3 : s.orders.any (fun o' => o'.payment_ref == some ref) = true
        · rw [if_pos h3] at h
          exact absurd h (by simp)
        · rw [if_neg h3] at h
          exact ⟨o, rfl, not_not.mp h1, not_not.mp h2,
            Bool.not_eq_true _ ▸ h3, (Except.ok.inj h).symm⟩

theorem run_once_ok_inv {s s' : SysState} {t jid : Nat}
    (h : run_once s t jid = Except.ok s') :
    ∃ j o, findJob s.jobs jid = some j ∧ findOrder s.orders j.order_id = some o ∧
      o.tenant_id = t ∧
      ((o.state = OrderState.CANCELLED ∧
        s' = { s with jobs := updateJob s.jobs jid (fun j' =>
          { j' with status := JobStatus.FAILED
                    last_error := some Err.InvalidTransition }) }) ∨
       (reachedPaid o.state ∧ ∃ st',
         applyItems t j.order_id s.stock o.line_items = Except.ok st' ∧
         s' = { s with
           stock := st'
           orders := updateOrder s.orders j.order_id (fun o' =>
             { o' with state := OrderState.FULFILLED, version := o'.version + 1 })
           jobs := updateJob s.jobs jid (fun j' =>
             { j' with status := JobStatus.SUCCEEDED
                       attempt_count := j'.attempt_count + 1 }) }) ∨
       (reachedPaid o.state ∧ ∃ e,
         applyItems t j.order_id s.stock o.line_items = Except.error e ∧
         s' = { s with jobs := updateJob s.jobs jid (fun j' =>
           { j' with
               status := if maxAttempts ≤ j'.attempt_count + 1 then JobStatus.FAILED
                         else JobStatus.QUEUED
               attempt_count := j'.attempt_count + 1
               last_error := some e }) })) := by
  cases hj : findJob s.jobs jid with
  | none => simp [run_once, hj] at h
  | some j =>
    cases hfo : findOrder s.orders j.order_id with
    | none => simp [run_once, hj, hfo] at h
    | some o =>
      simp only [run_once, hj, hfo] at h
      by_cases h1 : o.tenant_id ≠ t
      · rw [if_pos h1] at h
        exact absurd h (by simp)
      · rw [if_neg h1] at h
        refine ⟨j, o, rfl, hfo, not_not.mp h1, ?_⟩
        cases hstate : o.state with
        | CANCELLED =>
          rw [hstate] at h
          exact Or.inl ⟨rfl, (Except.ok.inj h).symm⟩
        | PENDING =>
          rw [hstate] at h
          exact absurd h (by simp)
        | APPROVED =>
          rw [hstate] at h
          exact absurd h (by simp)
        | PAID =>
          rw [hstate] at h
          cases happly : applyItems t j.order_id s.stock o.line_items with
          | ok st' =>
            rw [happly] at h
            exact Or.inr (Or.inl ⟨Or.inl rfl, st', rfl, (Except.ok.inj h).symm⟩)
          | error e =>
            rw [happly] at h
            exact Or.inr (Or.inr ⟨Or.inl rfl, e, rfl, (Except.ok.inj h).symm⟩)
        | FULFILLED =>
          rw [hstate] at h
          cases happly : applyItems t j.order_id s.stock o.line_items with
          | ok st' =>
            rw [happly] at h
            exact Or.inr (Or.inl ⟨Or.inr rfl, st', rfl, (Except.ok.inj h).symm⟩)
          | error e =>
            rw [happly] at h
            exact Or.inr (Or.inr ⟨Or.inr rfl, e, rfl, (Except.ok.inj h).symm⟩)

/-- C4: a delta that would drive the quantity negative fails with
`InvalidDelta`.  The embedding passes state explicitly and an error carries no
successor state, so the quantity is untouched and no StockMutationRecord is
appended by construction. -/
theorem apply_delta_negative_fails (st : Stock) (tenant_id product_id : Nat)
    (delta : Int) (causal_order_id : Nat) (p : Product)
    (hl : lookupProduct st.products product_id = some p)
    (ht : p.tenant_id = tenant_id)
    (hneg : (p.on_hand_quantity : Int) + delta < 0) :
    apply_delta st tenant_id product_id delta causal_order_id =
      Except.error Err.InvalidDelta := by
  simp only [apply_delta, hl]
  rw [if_neg (by simp [ht]), if_pos hneg]

/-- Witness for C4: one product with 3 on hand, delta -5. -/
theorem apply_delta_negative_fails_witness :
    apply_delta ⟨[⟨1, 1, "SKU-1", 3⟩], []⟩ 1 1 (-5) 9 =
      Except.error Err.InvalidDelta :=
  apply_delta_negative_fails ⟨[⟨1, 1, "SKU-1", 3⟩], []⟩ 1 1 (-5) 9
    ⟨1, 1, "SKU-1", 3⟩ rfl rfl (by decide)

/-- C7: every public core operation takes the caller's tenant and checks the
target entity's tenant at the boundary: a target that belongs to a different
tenant makes the call fail with `CrossTenantAccess`.  Errors carry no
successor state in this embedding, so no state change occurs. -/
theorem cross_tenant_rejected :
    (∀ st t pid delta oid p, lookupProduct st.products pid = some p →
      p.tenant_id ≠ t →
      apply_delta st t pid delta oid = Except.error Err.CrossTenantAccess) ∧
    (∀ st t pid p, lookupProduct st.products pid = some p →
      p.tenant_id ≠ t →
      get_quantity st t pid = Except.error Err.CrossTenantAccess) ∧
    (∀ s t oid approver ver o, findOrder s.orders oid = some o →
      o.tenant_id ≠ t →
      approve s t oid approver ver = Except.error Err.CrossTenantAccess) ∧
    (∀ s t oid o, findOrder s.orders oid = some o →
      o.tenant_id ≠ t →
      cancel s t oid = Except.error Err.CrossTenantAccess) ∧
    (∀ s t oid ref o, findOrder s.orders oid = some o →
      o.tenant_id ≠ t →
      confirm_payment s t oid ref = Except.error Err.CrossTenantAccess) ∧
    (∀ s t jid j o, findJob s.jobs jid = some j →
      findOrder s.orders j.order_id = some o →
      o.tenant_id ≠ t →
      run_once s t jid = Except.error Err.CrossTenantAccess) := by
  refine ⟨?_, ?_, ?_, ?_, ?_, ?_⟩
  · intro st t pid delta oid p hl hne
    simp only [apply_delta, hl]
    rw [if_pos hne]
  · intro st t pid p hl hne
    simp only [get_quantity, hl]
    rw [if_pos hne]
  · intro s t oid approver ver o ho hne
    simp only [approve, ho]
    rw [if_pos hne]
  · intro s t oid o ho hne
    simp only [cancel, ho]
    rw [if_pos hne]
  · intro s t oid ref o ho hne
    simp only [confirm_payment, ho]
    rw [if_pos hne]
  · intro s t jid j o hj ho hne
    simp only [run_once, hj, ho]
    rw [if_pos hne]

/-- Witness for C7: a caller of tenant 1 against entities of tenant 2, for
each of the six operations. -/
theorem cross_tenant_rejected_witness :
    apply_delta ⟨[⟨1, 2, "SKU-1", 3⟩], []⟩ 1 1 1 9 =
      Except.error Err.CrossTenantAccess ∧
    get_quantity ⟨[⟨1, 2, "SKU-1", 3⟩], []⟩ 1 1 =
      Except.error Err.CrossTenantAccess ∧
    approve ⟨⟨[], []⟩, [⟨5, 2, 7, [⟨1, 1, 1⟩], OrderState.PENDING, none, none, none, 0⟩],
        [], 6, 0⟩ 1 5 8 0 = Except.error Err.CrossTenantAccess ∧
    cancel ⟨⟨[], []⟩, [⟨5, 2, 7, [⟨1, 1, 1⟩], OrderState.PENDING, none, none, none, 0⟩],
        [], 6, 0⟩ 1 5 = Except.error Err.CrossTenantAccess ∧
    confirm_payment ⟨⟨[], []⟩, [⟨5, 2, 7, [⟨1, 1, 1⟩], OrderState.APPROVED, none, none, none, 1⟩],
        [], 6, 0⟩ 1 5 "PAY-1" = Except.error Err.CrossTenantAccess ∧
    run_once ⟨⟨[], []⟩, [⟨5, 2, 7, [⟨1, 1, 1⟩], OrderState.PAID, none, some "PAY-1", some 0, 2⟩],
        [⟨0, 5, 5, JobStatus.QUEUED, 0, none⟩], 6, 1⟩ 1 0 =
      Except.error Err.CrossTenantAccess := by
  refine ⟨?_, ?_, ?_, ?_, ?_, ?_⟩
  · exact cross_tenant_rejected.1 _ 1 1 1 9 ⟨1, 2, "SKU-1", 3⟩ rfl (by decide)
  · exact cross_tenant_rejected.2.1 _ 1 1 ⟨1, 2, "SKU-1", 3⟩ rfl (by decide)
  · exact cross_tenant_rejected.2.2.1 _ 1 5 8 0
      ⟨5, 2, 7, [⟨1, 1, 1⟩], OrderState.PENDING, none, none, none, 0⟩ rfl (by decide)
  · exact cross_tenant_rejected.2.2.2.1 _ 1 5
      ⟨5, 2, 7, [⟨1, 1, 1⟩], OrderState.PENDING, none, none, none, 0⟩ rfl (by decide)
  · exact cross_tenant_rejected.2.2.2.2.1 _ 1 5 "PAY-1"
      ⟨5, 2, 7, [⟨1, 1, 1⟩], OrderState.APPROVED, none, none, none, 1⟩ rfl (by decide)
  · exact cross_tenant_rejected.2.2.2.2.2 _ 1 0 ⟨0, 5, 5, JobStatus.QUEUED, 0, none⟩
      ⟨5, 2, 7, [⟨1, 1, 1⟩], OrderState.PAID, none, some "PAY-1", some 0, 2⟩ rfl rfl (by decide)

/-- C5: payment references are unique.  Once `confirm_payment` succeeds with a
reference, any further `confirm_payment` with the same reference — on any
order, from any tenant — fails, and the first order is the only one carrying
the reference (so the only one that reached `PAID` through it). -/
theorem payment_ref_unique (s s' : SysState) (t oid : Nat) (ref : String)
    (h : confirm_payment s t oid ref = Except.ok s') :
    (∀ t' oid', ∃ e, confirm_payment s' t' oid' ref = Except.error e) ∧
    (∀ o ∈ s'.orders, o.payment_ref = some ref → o.id = oid) := by
  obtain ⟨o, hfo, hten, happ, hany, hs'⟩ := confirm_payment_ok_inv h
  obtain ⟨homem, hoid⟩ := findOrder_mem hfo
  subst hs'
  have hmem' : ∀ f : PurchaseOrder → PurchaseOrder,
      (f o).payment_ref = some ref → (updateOrder s.orders oid f).any
        (fun o' => o'.payment_ref == some ref) = true := by
    intro f hf
    refine List.any_eq_true.mpr ⟨f o, ?_, by simp [hf]⟩
    exact List.mem_map.mpr ⟨o, homem, by simp [hoid]⟩
  constructor
  · intro t' oid'
    cases hfo' : findOrder (updateOrder s.orders oid (fun o' =>
        { o' with state := OrderState.PAID, payment_ref := some ref
                  fulfillment_job_id := some s.next_job_id
                  version := o'.version + 1 })) oid' with
    | none =>
      exact ⟨Err.NotFound, by simp [confirm_payment, hfo']⟩
    | some o' =>
      by_cases h1 : o'.tenant_id ≠ t'
      · refine ⟨Err.CrossTenantAccess, ?_⟩
        simp only [confirm_payment, hfo']
        rw [if_pos h1]
      · by_cases h2 : o'.state ≠ OrderState.APPROVED
        · refine ⟨Err.InvalidTransition, ?_⟩
          simp only [confirm_payment, hfo']
          rw [if_neg h1, if_pos h2]
        · refine ⟨Err.InvalidTransition, ?_⟩
          simp only [confirm_payment, hfo']
          rw [if_neg h1, if_neg h2, if_pos (hmem' _ rfl)]
  · intro o'' hmem href
    obtain ⟨x, hx, hgx⟩ := List.mem_map.mp hmem
    by_cases hxid : x.id = oid
    · rw [if_pos hxid] at hgx
      rw [← hgx]
      exact hxid
    · rw [if_neg hxid] at hgx
      subst hgx
      have : s.orders.any (fun o' => o'.payment_ref == some ref) = true :=
        List.any_eq_true.mpr ⟨x, hx, by simp [href]⟩
      rw [this] at hany
      exact absurd hany (by simp)

/-- Witness for C5: a second `confirm_payment` with reference "PAY-1" fails on
the state produced by the first one. -/
theorem payment_ref_unique_witness :
    (∀ t' oid', ∃ e, confirm_payment
      ⟨⟨[], []⟩, [⟨0, 1, 7, [⟨1, 5, 2⟩], OrderState.PAID, some 8, some "PAY-1", some 0, 2⟩],
       [⟨0, 0, 0, JobStatus.QUEUED, 0, none⟩], 1, 1⟩ t' oid' "PAY-1" = Except.error e) ∧
    (∀ o ∈ (⟨⟨[], []⟩,
        [⟨0, 1, 7, [⟨1, 5, 2⟩], OrderState.PAID, some 8, some "PAY-1", some 0, 2⟩],
        [⟨0, 0, 0, JobStatus.QUEUED, 0, none⟩], 1, 1⟩ : SysState).orders,
      o.payment_ref = some "PAY-1" → o.id = 0) :=
  payment_ref_unique
    ⟨⟨[], []⟩, [⟨0, 1, 7, [⟨1, 5, 2⟩], OrderState.APPROVED, some 8, none, none, 1⟩], [], 1, 0⟩
    ⟨⟨[], []⟩, [⟨0, 1, 7, [⟨1, 5, 2⟩], OrderState.PAID, some 8, some "PAY-1", some 0, 2⟩],
     [⟨0, 0, 0, JobStatus.QUEUED, 0, none⟩], 1, 1⟩
    1 0 "PAY-1" rfl

/-- C6: cancellation is guarded and irreversible.  Cancelling a `PAID` order
fails with `InvalidTransition` (the error carries no successor state, so the
order stays `PAID`); a successful cancel starts from `PENDING` or `APPROVED`
only; and no successful operation ever moves an order out of `CANCELLED`. -/
theorem cancel_rules :
    (∀ s t oid o, findOrder s.orders oid = some o → o.tenant_id = t →
      o.state = OrderState.PAID →
      cancel s t oid = Except.error Err.InvalidTransition) ∧
    (∀ s t oid s', cancel s t oid = Except.ok s' →
      ∃ o, findOrder s.orders oid = some o ∧
        (o.state = OrderState.PENDING ∨ o.state = OrderState.APPROVED)) ∧
    (∀ s s', Step s s' → (s.orders.map (fun o => o.id)).Nodup →
      ∀ o ∈ s.orders, o.state = OrderState.CANCELLED →
        ∃ o' ∈ s'.orders, o'.id = o.id ∧ o'.state = OrderState.CANCELLED) := by
  refine ⟨?_, ?_, ?_⟩
  · intro s t oid o ho hten hpaid
    simp only [cancel, ho]
    rw [if_neg (by simp [hten]), if_neg (by simp [hpaid])]
  · intro s t oid s' h
    obtain ⟨o, hfo, _, hst, _⟩ := cancel_ok_inv h
    exact ⟨o, hfo, hst⟩
  · intro s s' hstep hnd o ho hcanc
    cases hstep with
    | create_step t c oid items h =>
      obtain ⟨_, _, _, hs'⟩ := createOrder_ok_inv h
      subst hs'
      exact ⟨o, List.mem_cons_of_mem _ ho, rfl, hcanc⟩
    | approve_step t oid approver ver h =>
      obtain ⟨ot, hfo, _, hpend, _, hs'⟩ := approve_ok_inv h
      subst hs'
      obtain ⟨hotmem, hotid⟩ := findOrder_mem hfo
      by_cases hid : o.id = oid
      · have : o = ot := orders_id_inj hnd ho hotmem (hid.trans hotid.symm)
        rw [this, hpend] at hcanc
        exact absurd hcanc (by simp)
      · exact ⟨o, List.mem_map.mpr ⟨o, ho, by simp [hid]⟩, rfl, hcanc⟩
    | cancel_step t oid h =>
      obtain ⟨ot, hfo, _, _, hs'⟩ := cancel_ok_inv h
      subst hs'
      by_cases hid : o.id = oid
      · refine ⟨{ o with state := OrderState.CANCELLED, version := o.version + 1 }, ?_, rfl, rfl⟩
        exact List.mem_map.mpr ⟨o, ho, by simp [hid]⟩
      · exact ⟨o, List.mem_map.mpr ⟨o, ho, by simp [hid]⟩, rfl, hcanc⟩
    | confirm_step t oid ref h =>
      obtain ⟨ot, hfo, _, happ, _, hs'⟩ := confirm_payment_ok_inv h
      subst hs'
      obtain ⟨hotmem, hotid⟩ := findOrder_mem hfo
      by_cases hid : o.id = oid
      · have : o = ot := orders_id_inj hnd ho hotmem (hid.trans hotid.symm)
        rw [this, happ] at hcanc
        exact absurd hcanc (by simp)
      · exact ⟨o, List.mem_map.mpr ⟨o, ho, by simp [hid]⟩, rfl, hcanc⟩
    | run_step t jid h =>
      obtain ⟨j, ot, hj, hfo, hten, hbr⟩ := run_once_ok_inv h
      obtain ⟨hotmem, hotid⟩ := findOrder_mem hfo
      rcases hbr with ⟨_, hs'⟩ | ⟨hrp, _, _, hs'⟩ | ⟨_, _, _, hs'⟩
      · subst hs'
        exact ⟨o, ho, rfl, hcanc⟩
      · subst hs'
        by_cases hid : o.id = j.order_id
        · have heq : o = ot := orders_id_inj hnd ho hotmem (hid.trans hotid.symm)
          rw [← heq, hcanc] at hrp
          exact absurd hrp (by simp [reachedPaid])
        · exact ⟨o, List.mem_map.mpr ⟨o, ho, by simp [hid]⟩, rfl, hcanc⟩
      · subst hs'
        exact ⟨o, ho, rfl, hcanc⟩

/-- Witness for C6: cancelling a `PAID` order fails; cancelling a `PENDING`
order starts from `PENDING`; a step (a fresh `create`) keeps a `CANCELLED`
order cancelled. -/
theorem cancel_rules_witness :
    cancel ⟨⟨[], []⟩, [⟨0, 1, 7, [⟨1, 1, 1⟩], OrderState.PAID, some 8, some "P", some 0, 2⟩],
        [], 1, 1⟩ 1 0 = Except.error Err.InvalidTransition ∧
    (∃ o, findOrder (⟨⟨[], []⟩,
        [⟨0, 1, 7, [⟨1, 1, 1⟩], OrderState.PENDING, none, none, none, 0⟩],
        [], 1, 0⟩ : SysState).orders 0 = some o ∧
      (o.state = OrderState.PENDING ∨ o.state = OrderState.APPROVED)) ∧
    (∃ o' ∈ (⟨⟨[], []⟩,
        [⟨4, 1, 7, [⟨1, 1, 1⟩], OrderState.PENDING, none, none, none, 0⟩,
         ⟨3, 1, 7, [⟨1, 1, 1⟩], OrderState.CANCELLED, none, none, none, 1⟩],
        [], 5, 0⟩ : SysState).orders,
      o'.id = (⟨3, 1, 7, [⟨1, 1, 1⟩], OrderState.CANCELLED, none, none, none, 1⟩ :
        PurchaseOrder).id ∧ o'.state = OrderState.CANCELLED) := by
  refine ⟨?_, ?_, ?_⟩
  · exact cancel_rules.1 _ 1 0
      ⟨0, 1, 7, [⟨1, 1, 1⟩], OrderState.PAID, some 8, some "P", some 0, 2⟩ rfl rfl rfl
  · exact cancel_rules.2.1 _ 1 0
      ⟨⟨[], []⟩, [⟨0, 1, 7, [⟨1, 1, 1⟩], OrderState.CANCELLED, none, none, none, 1⟩],
       [], 1, 0⟩ rfl
  · exact cancel_rules.2.2
      ⟨⟨[], []⟩, [⟨3, 1, 7, [⟨1, 1, 1⟩], OrderState.CANCELLED, none, none, none, 1⟩],
       [], 4, 0⟩
      ⟨⟨[], []⟩, [⟨4, 1, 7, [⟨1, 1, 1⟩], OrderState.PENDING, none, none, none, 0⟩,
        ⟨3, 1, 7, [⟨1, 1, 1⟩], OrderState.CANCELLED, none, none, none, 1⟩],
       [], 5, 0⟩
      (Step.create_step _ _ 1 7 4 [⟨1, 1, 1⟩] rfl)
      (by decide)
      ⟨3, 1, 7, [⟨1, 1, 1⟩], OrderState.CANCELLED, none, none, none, 1⟩
      (by simp)
      rfl

theorem apply_delta_ok_inv {st st' : Stock} {t pid : Nat} {delta : Int} {oid q : Nat}
    (h : apply_delta st t pid delta oid = Except.ok (st', q)) :
    ∃ p, lookupProduct st.products pid = some p ∧ p.tenant_id = t ∧
      0 ≤ (p.on_hand_quantity : Int) + delta ∧
      hasRecord st.records oid pid = false ∧
      q = ((p.on_hand_quantity : Int) + delta).toNat ∧
      st' = { products := setQuantity st.products pid q
              records := { product_id := pid, delta := delta
                           caused_by_order_id := oid } :: st.records } := by
  cases hl : lookupProduct st.products pid with
  | none => simp [apply_delta, hl] at h
  | some p =>
    simp only [apply_delta, hl] at h
    by_cases h1 : p.tenant_id ≠ t
    · rw [if_pos h1] at h
      exact absurd h (by simp)
    · rw [if_neg h1] at h
      by_cases h2 : (p.on_hand_quantity : Int) + delta < 0
      · rw [if_pos h2] at h
        exact absurd h (by simp)
      · rw [if_neg h2] at h
        by_cases h3 : hasRecord st.records oid pid = true
        · rw [if_pos h3] at h
          exact absurd h (by simp)
        · rw [if_neg h3] at h
          obtain ⟨hs, hq⟩ := Prod.mk.injEq .. ▸ Except.ok.inj h
          refine ⟨p, rfl, not_not.mp h1, not_lt.mp h2, Bool.not_eq_true _ ▸ h3, hq.symm, ?_⟩
          rw [← hs, ← hq]

theorem lookup_setQuantity_same (ps : List Product) (pid q : Nat) :
    lookupProduct (setQuantity ps pid q) pid =
      (lookupProduct ps pid).map (fun p => { p with on_hand_quantity := q }) := by
  induction ps with
  | nil => rfl
  | cons p rest ih =>
    by_cases hp : p.id = pid
    · simp [lookupProduct, setQuantity, List.find?, hp]
    · have hb : (p.id == pid) = false := by simpa using hp
      simp only [setQuantity, List.map_cons, if_neg hp] at ih ⊢
      simp only [lookupProduct, List.find?, hb] at ih ⊢
      exact ih

theorem lookup_setQuantity_other (ps : List Product) (pid q pid' : Nat)
    (hne : pid' ≠ pid) :
    lookupProduct (setQuantity ps pid q) pid' = lookupProduct ps pid' := by
  induction ps with
  | nil => rfl
  | cons p rest ih =>
    by_cases hp : p.id = pid
    · have hb : (p.id == pid') = false := by
        simp only [beq_eq_false_iff_ne, ne_eq, hp]
        exact fun e => hne e.symm
      have hb2 : (({ p with on_hand_quantity := q } : Product).id == pid') = false := hb
      simp only [setQuantity, List.map_cons, if_pos hp] at ih ⊢
      simp only [lookupProduct, List.find?, hb, hb2] at ih ⊢
      exact ih
    · by_cases hp' : p.id = pid'
      · simp [lookupProduct, setQuantity, List.find?, hp, hp', hne]
      · have hb : (p.id == pid') = false := by simpa using hp'
        simp only [setQuantity, List.map_cons, if_neg hp] at ih ⊢
        simp only [lookupProduct, List.find?, hb] at ih ⊢
        exact ih

theorem shapeOf_setQuantity (ps : List Product) (pid q : Nat) :
    shapeOf (setQuantity ps pid q) = shapeOf ps := by
  simp only [shapeOf, setQuantity, List.map_map]
  congr 1
  funext p
  by_cases hp : p.id = pid
  · simp [hp, Function.comp]
  · simp [hp, Function.comp]

theorem lookup_shape_eq (ps : List Product) (pid : Nat) :
    (lookupProduct ps pid).map (fun p => (p.id, p.tenant_id)) =
      (shapeOf ps).find? (fun pr => pr.1 == pid) := by
  induction ps with
  | nil => rfl
  | cons p rest ih =>
    by_cases hp : p.id = pid
    · simp [lookupProduct, shapeOf, List.find?, hp]
    · have hb : (p.id == pid) = false := by simpa using hp
      simp only [lookupProduct, shapeOf, List.map_cons, List.find?, hb] at ih ⊢
      exact ih

theorem lookup_of_shape_eq {ps ps' : List Product} (hsh : shapeOf ps' = shapeOf ps)
    {pid : Nat} {p : Product} (hl : lookupProduct ps pid = some p) :
    ∃ p', lookupProduct ps' pid = some p' ∧ p'.id = p.id ∧ p'.tenant_id = p.tenant_id := by
  have h1 := lookup_shape_eq ps pid
  have h2 := lookup_shape_eq ps' pid
  rw [hsh, ← h1, hl] at h2
  cases hl' : lookupProduct ps' pid with
  | none => rw [hl'] at h2; exact absurd h2 (by simp)
  | some p' =>
    rw [hl'] at h2
    simp only [Option.map_some'] at h2
    have := Option.some.inj h2
    exact ⟨p', rfl, (Prod.mk.injEq .. ▸ this).1, (Prod.mk.injEq .. ▸ this).2⟩

theorem recSum_cons (r : StockMutationRecord) (recs : List StockMutationRecord)
    (pid : Nat) :
    recSum (r :: recs) pid =
      (if r.product_id = pid then r.delta else 0) + recSum recs pid := by
  simp [recSum]

theorem hasRecord_false_iff {recs : List StockMutationRecord} {oid pid : Nat} :
    hasRecord recs oid pid = false ↔
      ∀ r ∈ recs, ¬(r.caused_by_order_id = oid ∧ r.product_id = pid) := by
  unfold hasRecord
  rw [← Bool.not_eq_true, List.any_eq_true]
  constructor
  · intro hno r hr hc
    exact hno ⟨r, hr, by simp [hc.1, hc.2]⟩
  · rintro hall ⟨r, hr, hp⟩
    simp only [Bool.and_eq_true, beq_iff_eq] at hp
    exact hall r hr hp

theorem hasRecord_append_right {pre recs : List StockMutationRecord} {oid pid : Nat}
    (h : hasRecord recs oid pid = true) :
    hasRecord (pre ++ recs) oid pid = true := by
  unfold hasRecord at h ⊢
  rw [List.any_eq_true] at h ⊢
  obtain ⟨r, hr, hp⟩ := h
  exact ⟨r, List.mem_append_right _ hr, hp⟩

theorem qtyI_lookup_some {st : Stock} {pid : Nat} {p : Product}
    (h : lookupProduct st.products pid = some p) :
    qtyI st pid = (p.on_hand_quantity : Int) := by
  simp [qtyI, h]

theorem apply_delta_ok_balance {st st' : Stock} {t pid : Nat} {delta : Int}
    {oid q : Nat} (h : apply_delta st t pid delta oid = Except.ok (st', q))
    (pid' : Nat) :
    qtyI st' pid' - recSum st'.records pid' = qtyI st pid' - recSum st.records pid' := by
  obtain ⟨p, hl, _, hnn, _, hq, hst⟩ := apply_delta_ok_inv h
  subst hst
  subst hq
  by_cases hp : pid' = pid
  · subst hp
    have hl' : lookupProduct (setQuantity st.products pid' ((p.on_hand_quantity : Int) + delta).toNat) pid' = some { p with on_hand_quantity := ((p.on_hand_quantity : Int) + delta).toNat } := by
      rw [lookup_setQuantity_same, hl, Option.map_some']
    rw [qtyI_lookup_some hl', qtyI_lookup_some hl, recSum_cons]
    have hif : (if (⟨pid', delta, oid⟩ : StockMutationRecord).product_id = pid' then delta else 0) = delta := by simp
    rw [hif, Int.toNat_of_nonneg hnn]
    ring
  · have hl' : lookupProduct (setQuantity st.products pid ((p.on_hand_quantity : Int) + delta).toNat) pid' = lookupProduct st.products pid' :=
      lookup_setQuantity_other _ _ _ _ hp
    have e1 : qtyI ⟨setQuantity st.products pid ((p.on_hand_quantity : Int) + delta).toNat, (⟨pid, delta, oid⟩ : StockMutationRecord) :: st.records⟩ pid' = qtyI st pid' := by
      unfold qtyI
      rw [hl']
    rw [e1, recSum_cons]
    have hif : (if (⟨pid, delta, oid⟩ : StockMutationRecord).product_id = pid' then delta else 0) = 0 := by
      simp only [ite_eq_right_iff]
      intro e
      exact absurd e.symm hp
    rw [hif]
    ring

theorem apply_delta_dup_inv {st : Stock} {t pid : Nat} {delta : Int} {oid : Nat}
    (h : apply_delta st t pid delta oid = Except.error Err.DuplicateApplication) :
    hasRecord st.records oid pid = true ∧
    ∃ p, lookupProduct st.products pid = some p ∧ p.tenant_id = t := by
  cases hl : lookupProduct st.products pid with
  | none =>
    simp only [apply_delta, hl] at h
    exact absurd (Except.error.inj h) (by simp)
  | some p =>
    simp only [apply_delta, hl] at h
    by_cases h1 : p.tenant_id ≠ t
    · rw [if_pos h1] at h
      exact absurd (Except.error.inj h) (by simp)
    · rw [if_neg h1] at h
      by_cases h2 : (p.on_hand_quantity : Int) + delta < 0
      · rw [if_pos h2] at h
        exact absurd (Except.error.inj h) (by simp)
      · rw [if_neg h2] at h
        by_cases h3 : hasRecord st.records oid pid = true
        · exact ⟨h3, p, rfl, not_not.mp h1⟩
        · rw [if_neg h3] at h
          exact absurd h (by simp)

theorem applyItems_ok_facts {t oid : Nat} {items : List LineItem} :
    ∀ {st st' : Stock}, applyItems t oid st items = Except.ok st' →
    shapeOf st'.products = shapeOf st.products ∧
    (∃ new, st'.records = new ++ st.records ∧
      ∀ r ∈ new, r.caused_by_order_id = oid) ∧
    (∀ pid, qtyI st' pid - recSum st'.records pid =
      qtyI st pid - recSum st.records pid) ∧
    (∀ item ∈ items, hasRecord st'.records oid item.product_id = true) ∧
    (∀ item ∈ items, ∃ p,
      lookupProduct st'.products item.product_id = some p ∧ p.tenant_id = t) := by
  induction items with
  | nil =>
    intro st st' h
    simp only [applyItems] at h
    cases Except.ok.inj h
    exact ⟨rfl, ⟨[], by simp⟩, fun pid => rfl, by simp, by simp⟩
  | cons item rest ih =>
    intro st st' h
    simp only [applyItems] at h
    cases hd : apply_delta st t item.product_id (item.quantity : Int) oid with
    | ok pr =>
      obtain ⟨st1, q⟩ := pr
      rw [hd] at h
      obtain ⟨ihsh, ⟨new, ihnew, ihoid⟩, ihbal, ihhas, ihlook⟩ := ih h
      obtain ⟨p, hl, hten, hnn, hnorec, hq, hst1⟩ := apply_delta_ok_inv hd
      have hsh1 : shapeOf st1.products = shapeOf st.products := by
        rw [hst1]
        exact shapeOf_setQuantity _ _ _
      have hrec1 : st1.records = (⟨item.product_id, (item.quantity : Int), oid⟩ : StockMutationRecord) :: st.records := by rw [hst1]
      refine ⟨ihsh.trans hsh1, ?_, ?_, ?_, ?_⟩
      · refine ⟨new ++ [(⟨item.product_id, (item.quantity : Int), oid⟩ : StockMutationRecord)], ?_, ?_⟩
        · rw [ihnew, hrec1, List.append_assoc, List.singleton_append]
        · intro r hr
          rcases List.mem_append.mp hr with hr | hr
          · exact ihoid r hr
          · rw [List.mem_singleton.mp hr]
      · intro pid
        rw [ihbal pid]
        exact apply_delta_ok_balance hd pid
      · intro it hit
        rcases List.mem_cons.mp hit with hit | hit
        · subst hit
          have h1 : hasRecord st1.records oid it.product_id = true := by
            rw [hrec1]
            unfold hasRecord
            rw [List.any_eq_true]
            exact ⟨_, List.mem_cons_self _ _, by simp⟩
          rw [ihnew]
          exact hasRecord_append_right h1
        · exact ihhas it hit
      · intro it hit
        rcases List.mem_cons.mp hit with hit | hit
        · subst hit
          have hl1 : lookupProduct st1.products it.product_id =
              some { p with on_hand_quantity := q } := by
            rw [hst1, lookup_setQuantity_same, hl, Option.map_some']
          obtain ⟨p', hp', _, hpt⟩ := lookup_of_shape_eq ihsh hl1
          exact ⟨p', hp', by rw [hpt]; exact hten⟩
        · exact ihlook it hit
    | error e =>
      rw [hd] at h
      cases e with
      | DuplicateApplication =>
        obtain ⟨ihsh, ⟨new, ihnew, ihoid⟩, ihbal, ihhas, ihlook⟩ := ih h
        obtain ⟨hhas, p, hl, hten⟩ := apply_delta_dup_inv hd
        refine ⟨ihsh, ⟨new, ihnew, ihoid⟩, ihbal, ?_, ?_⟩
        · intro it hit
          rcases List.mem_cons.mp hit with hit | hit
          · subst hit
            rw [ihnew]
            exact hasRecord_append_right hhas
          · exact ihhas it hit
        · intro it hit
          rcases List.mem_cons.mp hit with hit | hit
          · subst hit
            obtain ⟨p', hp', _, hpt⟩ := lookup_of_shape_eq ihsh hl
            exact ⟨p', hp', by rw [hpt]; exact hten⟩
          · exact ihlook it hit
      | InvalidTransition => exact absurd h (by simp)
      | InvalidDelta => exact absurd h (by simp)
      | CrossTenantAccess => exact absurd h (by simp)
      | TransientStoreFailure => exact absurd h (by simp)
      | NotFound => exact absurd h (by simp)

theorem applyItems_ok_pairwise {t oid : Nat} {items : List LineItem} :
    ∀ {st st' : Stock}, applyItems t oid st items = Except.ok st' →
    st.records.Pairwise RecDistinct → st'.records.Pairwise RecDistinct := by
  induction items with
  | nil =>
    intro st st' h hu
    simp only [applyItems] at h
    cases Except.ok.inj h
    exact hu
  | cons item rest ih =>
    intro st st' h hu
    simp only [applyItems] at h
    cases hd : apply_delta st t item.product_id (item.quantity : Int) oid with
    | ok pr =>
      obtain ⟨st1, q⟩ := pr
      rw [hd] at h
      obtain ⟨p, hl, hten, hnn, hnorec, hq, hst1⟩ := apply_delta_ok_inv hd
      refine ih h ?_
      rw [hst1]
      refine List.Pairwise.cons ?_ hu
      intro r' hr'
      have := hasRecord_false_iff.mp hnorec r' hr'
      intro hc
      exact this ⟨hc.1.symm, hc.2.symm⟩
    | error e =>
      rw [hd] at h
      cases e with
      | DuplicateApplication => exact ih h hu
      | InvalidTransition => exact absurd h (by simp)
      | InvalidDelta => exact absurd h (by simp)
      | CrossTenantAccess => exact absurd h (by simp)
      | TransientStoreFailure => exact absurd h (by simp)
      | NotFound => exact absurd h (by simp)

theorem updateOrder_map_id (orders : List PurchaseOrder) (oid : Nat)
    (f : PurchaseOrder → PurchaseOrder) (hf : ∀ o, (f o).id = o.id) :
    (updateOrder orders oid f).map (fun o => o.id) = orders.map (fun o => o.id) := by
  simp only [updateOrder, List.map_map]
  congr 1
  funext o
  by_cases h : o.id = oid
  · simp [Function.comp, h, hf]
  · simp [Function.comp, h]

theorem mem_updateOrder_inv {orders : List PurchaseOrder} {oid : Nat}
    {f : PurchaseOrder → PurchaseOrder} {o' : PurchaseOrder}
    (h : o' ∈ updateOrder orders oid f) :
    ∃ o ∈ orders, o' = if o.id = oid then f o else o := by
  obtain ⟨o, ho, he⟩ := List.mem_map.mp h
  exact ⟨o, ho, he.symm⟩

theorem reachedPaid_mem_updateOrder {orders : List PurchaseOrder}
    (hnd : (orders.map (fun o => o.id)).Nodup) {oid : Nat} {ot : PurchaseOrder}
    (hfo : findOrder orders oid = some ot) (hnp : ¬reachedPaid ot.state)
    (f : PurchaseOrder → PurchaseOrder) {o : PurchaseOrder} (ho : o ∈ orders)
    (hp : reachedPaid o.state) : o ∈ updateOrder orders oid f := by
  have hne : o.id ≠ oid := by
    intro hid
    obtain ⟨hm, hoid⟩ := findOrder_mem hfo
    have : o = ot := orders_id_inj hnd ho hm (hid.trans hoid.symm)
    exact hnp (this ▸ hp)
  exact List.mem_map.mpr ⟨o, ho, by simp [hne]⟩

theorem reachedPaid_witness_updateOrder {orders : List PurchaseOrder} (oid : Nat)
    (f : PurchaseOrder → PurchaseOrder) (hfid : ∀ x, (f x).id = x.id)
    (hfp : ∀ x, reachedPaid (f x).state) {o : PurchaseOrder} (ho : o ∈ orders)
    (hp : reachedPaid o.state) :
    ∃ o' ∈ updateOrder orders oid f, o'.id = o.id ∧ reachedPaid o'.state := by
  by_cases hid : o.id = oid
  · exact ⟨f o, List.mem_map.mpr ⟨o, ho, by simp [hid]⟩, hfid o, hfp o⟩
  · exact ⟨o, List.mem_map.mpr ⟨o, ho, by simp [hid]⟩, rfl, hp⟩

theorem mem_updateJob_of_order {jobs : List Job} (jid : Nat) (f : Job → Job)
    (hf : ∀ x, (f x).order_id = x.order_id) {j : Job} (hj : j ∈ jobs) :
    ∃ j' ∈ updateJob jobs jid f, j'.order_id = j.order_id := by
  by_cases hid : j.id = jid
  · exact ⟨f j, List.mem_map.mpr ⟨j, hj, by simp [hid]⟩, hf j⟩
  · exact ⟨j, List.mem_map.mpr ⟨j, hj, by simp [hid]⟩, rfl⟩

theorem updateJob_mem_inv {jobs : List Job} (jid : Nat) (f : Job → Job)
    (hf : ∀ x, (f x).order_id = x.order_id) {j' : Job}
    (h : j' ∈ updateJob jobs jid f) :
    ∃ j ∈ jobs, j'.order_id = j.order_id := by
  obtain ⟨j, hj, he⟩ := List.mem_map.mp h
  refine ⟨j, hj, ?_⟩
  by_cases hid : j.id = jid
  · rw [← he]
    simp [hid, hf]
  · rw [← he]
    simp [hid]

theorem ids_of_shape {ps ps' : List Product} (h : shapeOf ps = shapeOf ps') :
    ps.map (fun p => p.id) = ps'.map (fun p => p.id) := by
  have e : ∀ l : List Product, l.map (fun p => p.id) = (shapeOf l).map Prod.fst := by
    intro l
    simp [shapeOf, List.map_map, Function.comp]
  rw [e, e, h]

theorem updateOrder_nodup (orders : List PurchaseOrder) (oid : Nat)
    (f : PurchaseOrder → PurchaseOrder) (hf : ∀ o, (f o).id = o.id)
    (hnd : (orders.map (fun o => o.id)).Nodup) :
    ((updateOrder orders oid f).map (fun o => o.id)).Nodup := by
  rw [updateOrder_map_id _ _ _ hf]
  exact hnd

theorem inv_create {s s' : SysState} {t c oid : Nat} {items : List LineItem}
    (h : createOrder s t c items = Except.ok (s', oid)) (hinv : Inv s) : Inv s' := by
  obtain ⟨⟨hnd, hbound, hpnd⟩, hrj, hru, hpj, hjj⟩ := hinv
  obtain ⟨_, _, _, hs'⟩ := createOrder_ok_inv h
  subst hs'
  refine ⟨⟨?_, ?_, hpnd⟩, ?_, hru, ?_, ?_⟩
  · simp only [List.map_cons]
    rw [List.nodup_cons]
    refine ⟨?_, hnd⟩
    intro hmem
    obtain ⟨o, ho, hid⟩ := List.mem_map.mp hmem
    exact absurd hid (Nat.ne_of_lt (hbound o ho))
  · intro o' h'
    rcases List.mem_cons.mp h' with h' | h'
    · rw [h']
      exact Nat.lt_succ_self _
    · exact Nat.lt_succ_of_lt (hbound o' h')
  · intro r hr
    obtain ⟨o, ho, hoid, hp⟩ := hrj r hr
    exact ⟨o, List.mem_cons_of_mem _ ho, hoid, hp⟩
  · intro o' h' hp'
    rcases List.mem_cons.mp h' with h' | h'
    · rw [h'] at hp'
      simp [reachedPaid] at hp'
    · exact hpj o' h' hp'
  · intro jb hjb
    obtain ⟨o, ho, hoid, hp⟩ := hjj jb hjb
    exact ⟨o, List.mem_cons_of_mem _ ho, hoid, hp⟩

theorem inv_approve {s s' : SysState} {t oid approver ver : Nat}
    (h : approve s t oid approver ver = Except.ok s') (hinv : Inv s) : Inv s' := by
  obtain ⟨⟨hnd, hbound, hpnd⟩, hrj, hru, hpj, hjj⟩ := hinv
  obtain ⟨ot, hfo, _, hpend, _, hs'⟩ := approve_ok_inv h
  subst hs'
  have hnp : ¬reachedPaid ot.state := by
    rw [hpend]
    decide
  refine ⟨⟨?_, ?_, hpnd⟩, ?_, hru, ?_, ?_⟩
  · exact updateOrder_nodup s.orders oid _ (fun o => rfl) hnd
  · intro o' h'
    obtain ⟨x, hx, he⟩ := mem_updateOrder_inv h'
    have hido : o'.id = x.id := by
      rw [he]
      by_cases hid : x.id = oid <;> simp [hid]
    rw [hido]
    exact hbound x hx
  · intro r hr
    obtain ⟨o, ho, hoid, hp⟩ := hrj r hr
    exact ⟨o, reachedPaid_mem_updateOrder hnd hfo hnp _ ho hp, hoid, hp⟩
  · intro o' h' hp'
    obtain ⟨x, hx, he⟩ := mem_updateOrder_inv h'
    by_cases hid : x.id = oid
    · rw [if_pos hid] at he
      rw [he] at hp'
      simp [reachedPaid] at hp'
    · rw [if_neg hid] at he
      subst he
      exact hpj o' hx hp'
  · intro jb hjb
    obtain ⟨o, ho, hoid, hp⟩ := hjj jb hjb
    exact ⟨o, reachedPaid_mem_updateOrder hnd hfo hnp _ ho hp, hoid, hp⟩

theorem inv_cancel {s s' : SysState} {t oid : Nat}
    (h : cancel s t oid = Except.ok s') (hinv : Inv s) : Inv s' := by
  obtain ⟨⟨hnd, hbound, hpnd⟩, hrj, hru, hpj, hjj⟩ := hinv
  obtain ⟨ot, hfo, _, hst, hs'⟩ := cancel_ok_inv h
  subst hs'
  have hnp : ¬reachedPaid ot.state := by
    rcases hst with hst | hst <;> rw [hst] <;> decide
  refine ⟨⟨?_, ?_, hpnd⟩, ?_, hru, ?_, ?_⟩
  · exact updateOrder_nodup s.orders oid _ (fun o => rfl) hnd
  · intro o' h'
    obtain ⟨x, hx, he⟩ := mem_updateOrder_inv h'
    have hido : o'.id = x.id := by
      rw [he]
      by_cases hid : x.id = oid <;> simp [hid]
    rw [hido]
    exact hbound x hx
  · intro r hr
    obtain ⟨o, ho, hoid, hp⟩ := hrj r hr
    exact ⟨o, reachedPaid_mem_updateOrder hnd hfo hnp _ ho hp, hoid, hp⟩
  · intro o' h' hp'
    obtain ⟨x, hx, he⟩ := mem_updateOrder_inv h'
    by_cases hid : x.id = oid
    · rw [if_pos hid] at he
      rw [he] at hp'
      simp [reachedPaid] at hp'
    · rw [if_neg hid] at he
      subst he
      exact hpj o' hx hp'
  · intro jb hjb
    obtain ⟨o, ho, hoid, hp⟩ := hjj jb hjb
    exact ⟨o, reachedPaid_mem_updateOrder hnd hfo hnp _ ho hp, hoid, hp⟩

theorem inv_confirm {s s' : SysState} {t oid : Nat} {ref : String}
    (h : confirm_payment s t oid ref = Except.ok s') (hinv : Inv s) : Inv s' := by
  obtain ⟨⟨hnd, hbound, hpnd⟩, hrj, hru, hpj, hjj⟩ := hinv
  obtain ⟨ot, hfo, _, happ, _, hs'⟩ := confirm_payment_ok_inv h
  subst hs'
  obtain ⟨hotm, hotid⟩ := findOrder_mem hfo
  have hnp : ¬reachedPaid ot.state := by
    rw [happ]
    decide
  refine ⟨⟨?_, ?_, hpnd⟩, ?_, hru, ?_, ?_⟩
  · exact updateOrder_nodup s.orders oid _ (fun o => rfl) hnd
  · intro o' h'
    obtain ⟨x, hx, he⟩ := mem_updateOrder_inv h'
    have hido : o'.id = x.id := by
      rw [he]
      by_cases hid : x.id = oid <;> simp [hid]
    rw [hido]
    exact hbound x hx
  · intro r hr
    obtain ⟨o, ho, hoid, hp⟩ := hrj r hr
    exact ⟨o, reachedPaid_mem_updateOrder hnd hfo hnp _ ho hp, hoid, hp⟩
  · intro o' h' hp'
    obtain ⟨x, hx, he⟩ := mem_updateOrder_inv h'
    by_cases hid : x.id = oid
    · rw [if_pos hid] at he
      refine ⟨(⟨s.next_job_id, oid, oid, JobStatus.QUEUED, 0, none⟩ : Job),
        List.mem_cons_self _ _, ?_⟩
      rw [he]
      exact hid.symm
    · rw [if_neg hid] at he
      subst he
      obtain ⟨jb, hjb, hje⟩ := hpj o' hx hp'
      exact ⟨jb, List.mem_cons_of_mem _ hjb, hje⟩
  · intro jb hjb
    rcases List.mem_cons.mp hjb with hjb | hjb
    · refine ⟨{ ot with state := OrderState.PAID, payment_ref := some ref, fulfillment_job_id := some s.next_job_id, version := ot.version + 1 }, List.mem_map.mpr ⟨ot, hotm, by simp [hotid]⟩, ?_, Or.inl rfl⟩
      rw [hjb]
      exact hotid
    · obtain ⟨o, ho, hoid, hp⟩ := hjj jb hjb
      exact ⟨o, reachedPaid_mem_updateOrder hnd hfo hnp _ ho hp, hoid, hp⟩

theorem inv_run {s s' : SysState} {t jid : Nat}
    (h : run_once s t jid = Except.ok s') (hinv : Inv s) : Inv s' := by
  obtain ⟨⟨hnd, hbound, hpnd⟩, hrj, hru, hpj, hjj⟩ := hinv
  obtain ⟨j, ot, hj, hfo, hten, hbr⟩ := run_once_ok_inv h
  obtain ⟨hotm, hotid⟩ := findOrder_mem hfo
  rcases hbr with ⟨hcanc, hs'⟩ | ⟨hrp, st', happly, hs'⟩ | ⟨hrp, e, happly, hs'⟩
  · subst hs'
    refine ⟨⟨hnd, hbound, hpnd⟩, hrj, hru, ?_, ?_⟩
    · intro o' h' hp'
      obtain ⟨jb, hjb, hje⟩ := hpj o' h' hp'
      obtain ⟨jb', hjb', hje'⟩ := mem_updateJob_of_order jid
        (fun j' => { j' with status := JobStatus.FAILED, last_error := some Err.InvalidTransition })
        (fun x => rfl) hjb
      exact ⟨jb', hjb', hje'.trans hje⟩
    · intro jb' hjb'
      obtain ⟨jx, hjx, heq⟩ := updateJob_mem_inv jid
        (fun j' => { j' with status := JobStatus.FAILED, last_error := some Err.InvalidTransition })
        (fun x => rfl) hjb'
      obtain ⟨o, ho, hoid, hp⟩ := hjj jx hjx
      exact ⟨o, ho, hoid.trans heq.symm, hp⟩
  · subst hs'
    obtain ⟨hsh, ⟨new, hnew, hnoid⟩, hbal, hhas, hlook⟩ := applyItems_ok_facts happly
    refine ⟨⟨?_, ?_, ?_⟩, ?_, ?_, ?_, ?_⟩
    · exact updateOrder_nodup s.orders j.order_id _ (fun o => rfl) hnd
    · intro o' h'
      obtain ⟨x, hx, he⟩ := mem_updateOrder_inv h'
      have hido : o'.id = x.id := by
        rw [he]
        by_cases hid : x.id = j.order_id <;> simp [hid]
      rw [hido]
      exact hbound x hx
    · rw [ids_of_shape hsh]
      exact hpnd
    · intro r hr
      rw [hnew] at hr
      rcases List.mem_append.mp hr with hr | hr
      · refine ⟨{ ot with state := OrderState.FULFILLED, version := ot.version + 1 }, List.mem_map.mpr ⟨ot, hotm, by simp [hotid]⟩, ?_, Or.inr rfl⟩
        rw [hnoid r hr]
        exact hotid
      · obtain ⟨o, ho, hoid, hp⟩ := hrj r hr
        obtain ⟨o', ho', hido, hp'⟩ := reachedPaid_witness_updateOrder j.order_id
          (fun y => { y with state := OrderState.FULFILLED, version := y.version + 1 })
          (fun x => rfl) (fun x => Or.inr rfl) ho hp
        exact ⟨o', ho', hido.trans hoid, hp'⟩
    · exact applyItems_ok_pairwise happly hru
    · intro o' h' hp'
      obtain ⟨x, hx, he⟩ := mem_updateOrder_inv h'
      have hido : o'.id = x.id := by
        rw [he]
        by_cases hid : x.id = j.order_id <;> simp [hid]
      have hxp : reachedPaid x.state := by
        by_cases hid : x.id = j.order_id
        · have hxot : x = ot := orders_id_inj hnd hx hotm (hid.trans hotid.symm)
          rw [hxot]
          exact hrp
        · rw [if_neg hid] at he
          rw [he] at hp'
          exact hp'
      obtain ⟨jb, hjb, hje⟩ := hpj x hx hxp
      obtain ⟨jb', hjb', hje'⟩ := mem_updateJob_of_order jid
        (fun j' => { j' with status := JobStatus.SUCCEEDED, attempt_count := j'.attempt_count + 1 })
        (fun y => rfl) hjb
      exact ⟨jb', hjb', hje'.trans (hje.trans hido.symm)⟩
    · intro jb' hjb'
      obtain ⟨jx, hjx, heq⟩ := updateJob_mem_inv jid
        (fun j' => { j' with status := JobStatus.SUCCEEDED, attempt_count := j'.attempt_count + 1 })
        (fun y => rfl) hjb'
      obtain ⟨o, ho, hoid, hp⟩ := hjj jx hjx
      obtain ⟨o', ho', hido, hp'⟩ := reachedPaid_witness_updateOrder j.order_id
        (fun y => { y with state := OrderState.FULFILLED, version := y.version + 1 })
        (fun x => rfl) (fun x => Or.inr rfl) ho hp
      exact ⟨o', ho', by rw [hido, hoid, heq], hp'⟩
  · subst hs'
    refine ⟨⟨hnd, hbound, hpnd⟩, hrj, hru, ?_, ?_⟩
    · intro o' h' hp'
      obtain ⟨jb, hjb, hje⟩ := hpj o' h' hp'
      obtain ⟨jb', hjb', hje'⟩ := mem_updateJob_of_order jid
        (fun j' => { j' with status := if maxAttempts ≤ j'.attempt_count + 1 then JobStatus.FAILED else JobStatus.QUEUED, attempt_count := j'.attempt_count + 1, last_error := some e })
        (fun x => rfl) hjb
      exact ⟨jb', hjb', hje'.trans hje⟩
    · intro jb' hjb'
      obtain ⟨jx, hjx, heq⟩ := updateJob_mem_inv jid
        (fun j' => { j' with status := if maxAttempts ≤ j'.attempt_count + 1 then JobStatus.FAILED else JobStatus.QUEUED, attempt_count := j'.attempt_count + 1, last_error := some e })
        (fun x => rfl) hjb'
      obtain ⟨o, ho, hoid, hp⟩ := hjj jx hjx
      exact ⟨o, ho, hoid.trans heq.symm, hp⟩

/-- One successful operation preserves the system invariant. -/
theorem inv_step {s s' : SysState} (hstep : Step s s') (hinv : Inv s) : Inv s' := by
  cases hstep with
  | create_step t c oid items h => exact inv_create h hinv
  | approve_step t oid approver ver h => exact inv_approve h hinv
  | cancel_step t oid h => exact inv_cancel h hinv
  | confirm_step t oid ref h => exact inv_confirm h hinv
  | run_step t jid h => exact inv_run h hinv

/-- An initial state satisfies the invariant. -/
theorem init_inv {s : SysState} (h : Init s) : Inv s := by
  obtain ⟨ho, hj, hr, hp⟩ := h
  refine ⟨⟨?_, ?_, hp⟩, ?_, ?_, ?_, ?_⟩
  · rw [ho]
    exact List.nodup_nil
  · rw [ho]
    intro o h
    exact absurd h (List.not_mem_nil o)
  · intro r hrr
    rw [hr] at hrr
    exact absurd hrr (List.not_mem_nil r)
  · unfold RecordsUnique
    rw [hr]
    exact List.Pairwise.nil
  · intro o hoo
    rw [ho] at hoo
    exact absurd hoo (List.not_mem_nil o)
  · intro jb hjb
    rw [hj] at hjb
    exact absurd hjb (List.not_mem_nil jb)

/-- The invariant holds in every reachable state. -/
theorem inv_reachable {s₀ s : SysState} (h : Reachable s₀ s) (hinv : Inv s₀) :
    Inv s := by
  induction h with
  | refl => exact hinv
  | tail _ hbc ih => exact inv_step hbc ih

theorem balance_step {s s' : SysState} (hstep : Step s s') (pid : Nat) :
    qtyI s'.stock pid - recSum s'.stock.records pid =
      qtyI s.stock pid - recSum s.stock.records pid := by
  cases hstep with
  | create_step t c oid items h =>
    obtain ⟨_, _, _, hs'⟩ := createOrder_ok_inv h
    subst hs'
    rfl
  | approve_step t oid approver ver h =>
    obtain ⟨ot, _, _, _, _, hs'⟩ := approve_ok_inv h
    subst hs'
    rfl
  | cancel_step t oid h =>
    obtain ⟨ot, _, _, _, hs'⟩ := cancel_ok_inv h
    subst hs'
    rfl
  | confirm_step t oid ref h =>
    obtain ⟨ot, _, _, _, _, hs'⟩ := confirm_payment_ok_inv h
    subst hs'
    rfl
  | run_step t jid h =>
    obtain ⟨j, ot, hj, hfo, hten, hbr⟩ := run_once_ok_inv h
    rcases hbr with ⟨_, hs'⟩ | ⟨_, st', happly, hs'⟩ | ⟨_, e, happly, hs'⟩
    · subst hs'
      rfl
    · subst hs'
      exact (applyItems_ok_facts happly).2.2.1 pid
    · subst hs'
      rfl

theorem balance_reachable {s₀ s : SysState} (h : Reachable s₀ s) (pid : Nat) :
    qtyI s.stock pid - recSum s.stock.records pid =
      qtyI s₀.stock pid - recSum s₀.stock.records pid := by
  induction h with
  | refl => rfl
  | tail _ hbc ih => exact (balance_step hbc pid).trans ih

theorem findJob_updateJob (jobs : List Job) (jid : Nat) (f : Job → Job)
    (hf : ∀ x, (f x).id = x.id) (jid' : Nat) :
    findJob (updateJob jobs jid f) jid' =
      (findJob jobs jid').map (fun x => if x.id = jid then f x else x) := by
  unfold findJob updateJob
  rw [List.find?_map]
  have hpred : ((fun x : Job => x.id == jid') ∘ fun x => if x.id = jid then f x else x) = (fun x : Job => x.id == jid') := by
    funext x
    by_cases h : x.id = jid <;> simp [Function.comp, h, hf]
  rw [hpred]

theorem findOrder_updateOrder (orders : List PurchaseOrder) (oid : Nat)
    (f : PurchaseOrder → PurchaseOrder) (hf : ∀ x, (f x).id = x.id) (oid' : Nat) :
    findOrder (updateOrder orders oid f) oid' =
      (findOrder orders oid').map (fun x => if x.id = oid then f x else x) := by
  unfold findOrder updateOrder
  rw [List.find?_map]
  have hpred : ((fun x : PurchaseOrder => x.id == oid') ∘ fun x => if x.id = oid then f x else x) = (fun x : PurchaseOrder => x.id == oid') := by
    funext x
    by_cases h : x.id = oid <;> simp [Function.comp, h, hf]
  rw [hpred]

theorem run_once_eq_apply (s : SysState) (t jid : Nat) {j : Job}
    {o : PurchaseOrder} (hj : findJob s.jobs jid = some j)
    (ho : findOrder s.orders j.order_id = some o) (hten : o.tenant_id = t)
    (hp : o.state = OrderState.PAID ∨ o.state = OrderState.FULFILLED)
    {st' : Stock}
    (ha : applyItems t j.order_id s.stock o.line_items = Except.ok st') :
    run_once s t jid = Except.ok { s with
      stock := st'
      orders := updateOrder s.orders j.order_id (fun o' =>
        { o' with state := OrderState.FULFILLED, version := o'.version + 1 })
      jobs := updateJob s.jobs jid (fun j' =>
        { j' with status := JobStatus.SUCCEEDED
                  attempt_count := j'.attempt_count + 1 }) } := by
  simp only [run_once, hj, ho]
  rw [if_neg (by simp [hten])]
  rcases hp with hp | hp <;> rw [hp] <;> simp [ha]

theorem run_once_eq_fail (s : SysState) (t jid : Nat) {j : Job}
    {o : PurchaseOrder} (hj : findJob s.jobs jid = some j)
    (ho : findOrder s.orders j.order_id = some o) (hten : o.tenant_id = t)
    (hp : o.state = OrderState.PAID ∨ o.state = OrderState.FULFILLED) {e : Err}
    (ha : applyItems t j.order_id s.stock o.line_items = Except.error e) :
    run_once s t jid = Except.ok { s with
      jobs := updateJob s.jobs jid (fun j' =>
        { j' with
            status := if maxAttempts ≤ j'.attempt_count + 1 then JobStatus.FAILED
                      else JobStatus.QUEUED
            attempt_count := j'.attempt_count + 1
            last_error := some e }) } := by
  simp only [run_once, hj, ho]
  rw [if_neg (by simp [hten])]
  rcases hp with hp | hp <;> rw [hp] <;> simp [ha]

theorem run_once_eq_cancelled (s : SysState) (t jid : Nat) {j : Job}
    {o : PurchaseOrder} (hj : findJob s.jobs jid = some j)
    (ho : findOrder s.orders j.order_id = some o) (hten : o.tenant_id = t)
    (hc : o.state = OrderState.CANCELLED) :
    run_once s t jid = Except.ok { s with
      jobs := updateJob s.jobs jid (fun j' =>
        { j' with status := JobStatus.FAILED
                  last_error := some Err.InvalidTransition }) } := by
  simp only [run_once, hj, ho]
  rw [if_neg (by simp [hten]), hc]

theorem applyItems_all_dup {t oid : Nat} {items : List LineItem} {st : Stock}
    (h1 : ∀ item ∈ items, hasRecord st.records oid item.product_id = true)
    (h2 : ∀ item ∈ items, ∃ p,
      lookupProduct st.products item.product_id = some p ∧ p.tenant_id = t) :
    applyItems t oid st items = Except.ok st := by
  induction items with
  | nil => rfl
  | cons item rest ih =>
    obtain ⟨p, hl, hten⟩ := h2 item (List.mem_cons_self _ _)
    have hd : apply_delta st t item.product_id (item.quantity : Int) oid =
        Except.error Err.DuplicateApplication := by
      simp only [apply_delta, hl]
      rw [if_neg (by simp [hten]), if_neg (by omega),
        if_pos (h1 item (List.mem_cons_self _ _))]
    simp only [applyItems, hd]
    exact ih (fun it hit => h1 it (List.mem_cons_of_mem _ hit))
      (fun it hit => h2 it (List.mem_cons_of_mem _ hit))

theorem exInit_reaches_exFinal : Reachable exInit exFinal := by
  have h1 : Step exInit exAfterCreate :=
    Step.create_step _ _ 1 7 0 [⟨1, 5, 10⟩] rfl
  have h2 : Step exAfterCreate exAfterApprove :=
    Step.approve_step _ _ 1 0 8 0 rfl
  have h3 : Step exAfterApprove exAfterPay :=
    Step.confirm_step _ _ 1 0 "PAY-1" rfl
  have h4 : Step exAfterPay exFinal :=
    Step.run_step _ _ 1 0 rfl
  exact Relation.ReflTransGen.tail (Relation.ReflTransGen.tail
    (Relation.ReflTransGen.tail (Relation.ReflTransGen.single h1) h2) h3) h4

/-- C1: in every state reachable from an initial state, every
StockMutationRecord references an order that reached `PAID` (its state is
`PAID` or `FULFILLED` — never `PENDING`, `APPROVED` or `CANCELLED`), no two
records share a causal order and product (the fulfillment effect lands exactly
once), and `on_hand_quantity` differs from its initial value exactly by the sum
of the recorded deltas — so a quantity is modified if and only if such records
exist. -/
theorem stock_mutation_iff_paid (s₀ s : SysState) (hinit : Init s₀)
    (hreach : Reachable s₀ s) :
    RecordsJustified s ∧ RecordsUnique s ∧
    (∀ pid, qtyI s.stock pid = qtyI s₀.stock pid + recSum s.stock.records pid) := by
  have hinv := inv_reachable hreach (init_inv hinit)
  refine ⟨hinv.2.1, hinv.2.2.1, ?_⟩
  intro pid
  have hb := balance_reachable hreach pid
  have h0 : recSum s₀.stock.records pid = 0 := by
    rw [hinit.2.2.1]
    rfl
  rw [h0] at hb
  linarith

/-- Witness for C1 along the concrete walkthrough trace. -/
theorem stock_mutation_iff_paid_witness :
    RecordsJustified exFinal ∧ RecordsUnique exFinal ∧
    (∀ pid, qtyI exFinal.stock pid =
      qtyI exInit.stock pid + recSum exFinal.stock.records pid) :=
  stock_mutation_iff_paid exInit exFinal ⟨rfl, rfl, rfl, by decide⟩ exInit_reaches_exFinal

/-- C3 (amended): in every reachable state, every order that reached `PAID`
has a fulfillment job and every fulfillment job belongs to an order that
reached `PAID` (its state is `PAID` or `FULFILLED`); and a successful
`confirm_payment` commits both effects in its single returned state — the
order `PAID` with its `fulfillment_job_id` set, and exactly one matching
enqueued job — while a failed one returns an error carrying no state at
all. -/
theorem paid_job_invariant (s₀ s : SysState) (hinit : Init s₀)
    (hreach : Reachable s₀ s) :
    PaidHasJob s ∧ JobsJustified s ∧
    (∀ t oid ref s', confirm_payment s t oid ref = Except.ok s' →
      ∃ o ∈ s'.orders, o.id = oid ∧ o.state = OrderState.PAID ∧
        o.fulfillment_job_id = some s.next_job_id ∧
        ∃ jb ∈ s'.jobs, jb.id = s.next_job_id ∧ jb.order_id = oid) := by
  have hinv := inv_reachable hreach (init_inv hinit)
  refine ⟨hinv.2.2.2.1, hinv.2.2.2.2, ?_⟩
  intro t oid ref s' h
  obtain ⟨ot, hfo, _, _, _, hs'⟩ := confirm_payment_ok_inv h
  obtain ⟨hotm, hotid⟩ := findOrder_mem hfo
  subst hs'
  refine ⟨{ ot with state := OrderState.PAID, payment_ref := some ref, fulfillment_job_id := some s.next_job_id, version := ot.version + 1 }, List.mem_map.mpr ⟨ot, hotm, by simp [hotid]⟩, hotid, rfl, rfl, ?_⟩
  exact ⟨⟨s.next_job_id, oid, oid, JobStatus.QUEUED, 0, none⟩,
    List.mem_cons_self _ _, rfl, rfl⟩

/-- Witness for C3's amended invariant along the concrete walkthrough. -/
theorem paid_job_invariant_witness :
    PaidHasJob exFinal ∧ JobsJustified exFinal ∧
    (∀ t oid ref s', confirm_payment exFinal t oid ref = Except.ok s' →
      ∃ o ∈ s'.orders, o.id = oid ∧ o.state = OrderState.PAID ∧
        o.fulfillment_job_id = some exFinal.next_job_id ∧
        ∃ jb ∈ s'.jobs, jb.id = exFinal.next_job_id ∧ jb.order_id = oid) :=
  paid_job_invariant exInit exFinal ⟨rfl, rfl, rfl, by decide⟩ exInit_reaches_exFinal

/-- Counterexample to C3 as stated: the literal claim also asserts that no
reachable state has a fulfillment job whose order is *not in the `PAID`
state*.  The spec's own walkthrough refutes it: after `run_once` the job
remains (marked `SUCCEEDED`) while its order has moved on from `PAID` to
`FULFILLED`.  Concretely, `exFinal` is reachable from the initial state, its
only job references its only order, and that order's state is `FULFILLED`,
not `PAID`. -/
theorem paid_job_counterexample :
    Init exInit ∧ Reachable exInit exFinal ∧
    exFinal.jobs = [⟨0, 0, 0, JobStatus.SUCCEEDED, 1, none⟩] ∧
    exFinal.orders = [⟨0, 1, 7, [⟨1, 5, 10⟩], OrderState.FULFILLED, some 8,
      some "PAY-1", some 0, 3⟩] ∧
    (⟨0, 0, 0, JobStatus.SUCCEEDED, 1, none⟩ : Job).order_id =
      (⟨0, 1, 7, [⟨1, 5, 10⟩], OrderState.FULFILLED, some 8, some "PAY-1",
        some 0, 3⟩ : PurchaseOrder).id ∧
    (⟨0, 1, 7, [⟨1, 5, 10⟩], OrderState.FULFILLED, some 8, some "PAY-1",
      some 0, 3⟩ : PurchaseOrder).state ≠ OrderState.PAID :=
  ⟨⟨rfl, rfl, rfl, by decide⟩, exInit_reaches_exFinal, rfl, rfl, rfl, by decide⟩

/-- C2: retrying a fulfillment job is a no-op on stock.  Whenever `run_once`
returns successfully, invoking it again on the same job succeeds and leaves
the products and the StockMutationRecords exactly as they were — so across
both runs each line item's record is appended at most once and each quantity
changes at most once.  The mechanism is the ledger's idempotence guard: with
the record already present (and the delta otherwise applicable), `apply_delta`
fails with `DuplicateApplication`, which the executor treats as success. -/
theorem run_once_retry_noop (s s₁ : SysState) (t jid : Nat)
    (h : run_once s t jid = Except.ok s₁) :
    (∃ s₂, run_once s₁ t jid = Except.ok s₂ ∧ s₂.stock = s₁.stock) ∧
    (∀ st tenant pid delta oid p, lookupProduct st.products pid = some p →
      p.tenant_id = tenant → 0 ≤ (p.on_hand_quantity : Int) + delta →
      hasRecord st.records oid pid = true →
      apply_delta st tenant pid delta oid =
        Except.error Err.DuplicateApplication) := by
  constructor
  · obtain ⟨j, ot, hj, hfo, hten, hbr⟩ := run_once_ok_inv h
    obtain ⟨hjm, hjid⟩ := findJob_mem hj
    obtain ⟨hotm, hotid⟩ := findOrder_mem hfo
    rcases hbr with ⟨hcanc, hs'⟩ | ⟨hrp, st', happly, hs'⟩ | ⟨hrp, e, happly, hs'⟩
    · subst hs'
      have hfind : findJob (updateJob s.jobs jid (fun j' => { j' with status := JobStatus.FAILED, last_error := some Err.InvalidTransition })) jid = some { j with status := JobStatus.FAILED, last_error := some Err.InvalidTransition } := by
        rw [findJob_updateJob s.jobs jid (fun j' => { j' with status := JobStatus.FAILED, last_error := some Err.InvalidTransition }) (fun x => rfl) jid, hj]
        simp [hjid]
      exact ⟨_, run_once_eq_cancelled { s with jobs := updateJob s.jobs jid (fun j' => { j' with status := JobStatus.FAILED, last_error := some Err.InvalidTransition }) } t jid hfind hfo hten hcanc, rfl⟩
    · subst hs'
      obtain ⟨hsh, ⟨new, hnew, hnoid⟩, hbal, hhas, hlook⟩ := applyItems_ok_facts happly
      have hfind : findJob (updateJob s.jobs jid (fun j' => { j' with status := JobStatus.SUCCEEDED, attempt_count := j'.attempt_count + 1 })) jid = some { j with status := JobStatus.SUCCEEDED, attempt_count := j.attempt_count + 1 } := by
        rw [findJob_updateJob s.jobs jid (fun j' => { j' with status := JobStatus.SUCCEEDED, attempt_count := j'.attempt_count + 1 }) (fun x => rfl) jid, hj]
        simp [hjid]
      have horder : findOrder (updateOrder s.orders j.order_id (fun o' => { o' with state := OrderState.FULFILLED, version := o'.version + 1 })) j.order_id = some { ot with state := OrderState.FULFILLED, version := ot.version + 1 } := by
        rw [findOrder_updateOrder s.orders j.order_id (fun o' => { o' with state := OrderState.FULFILLED, version := o'.version + 1 }) (fun x => rfl) j.order_id, hfo]
        simp [hotid]
      have hdup : applyItems t j.order_id st' ot.line_items = Except.ok st' :=
        applyItems_all_dup hhas hlook
      exact ⟨_, run_once_eq_apply { s with stock := st', orders := updateOrder s.orders j.order_id (fun o' => { o' with state := OrderState.FULFILLED, version := o'.version + 1 }), jobs := updateJob s.jobs jid (fun j' => { j' with status := JobStatus.SUCCEEDED, attempt_count := j'.attempt_count + 1 }) } t jid hfind horder hten (Or.inr rfl) hdup, rfl⟩
    · subst hs'
      have hfind : findJob (updateJob s.jobs jid (fun j' => { j' with status := if maxAttempts ≤ j'.attempt_count + 1 then JobStatus.FAILED else JobStatus.QUEUED, attempt_count := j'.attempt_count + 1, last_error := some e })) jid = some { j with status := if maxAttempts ≤ j.attempt_count + 1 then JobStatus.FAILED else JobStatus.QUEUED, attempt_count := j.attempt_count + 1, last_error := some e } := by
        rw [findJob_updateJob s.jobs jid (fun j' => { j' with status := if maxAttempts ≤ j'.attempt_count + 1 then JobStatus.FAILED else JobStatus.QUEUED, attempt_count := j'.attempt_count + 1, last_error := some e }) (fun x => rfl) jid, hj]
        simp [hjid]
      exact ⟨_, run_once_eq_fail { s with jobs := updateJob s.jobs jid (fun j' => { j' with status := if maxAttempts ≤ j'.attempt_count + 1 then JobStatus.FAILED else JobStatus.QUEUED, attempt_count := j'.attempt_count + 1, last_error := some e }) } t jid hfind hfo hten hrp happly, rfl⟩
  · intro st tenant pid delta oid p hl htn hnn hrec
    simp only [apply_delta, hl]
    rw [if_neg (by simp [htn]), if_neg (not_lt.mpr hnn), if_pos hrec]

/-- Witness for C2: running the walkthrough's fulfillment job a second time
changes no stock, and a concrete duplicate delta is refused. -/
theorem run_once_retry_noop_witness :
    (∃ s₂, run_once exFinal 1 0 = Except.ok s₂ ∧ s₂.stock = exFinal.stock) ∧
    (∀ st tenant pid delta oid p, lookupProduct st.products pid = some p →
      p.tenant_id = tenant → 0 ≤ (p.on_hand_quantity : Int) + delta →
      hasRecord st.records oid pid = true →
      apply_delta st tenant pid delta oid =
        Except.error Err.DuplicateApplication) :=
  run_once_retry_noop exAfterPay exFinal 1 0 rfl

end Core

end SmartInventory
